import Mathlib

/-!
Verification of the change-detection core of `git_issue_notifier.py`.

The Python source keeps two in-memory tables on the `IssueMonitor` object:
`previous_issues` (a dict from issue key to the issue object) and
`previous_comments` (a dict from issue key to the full list of comments seen
for that issue).  Each poll cycle (`_check_gitlab` / `_check_github`) fetches
the full issue list, diffs it against `previous_issues`, sends one
notification per detected change, advances `previous_comments` per issue, and
finally commits `previous_issues := current_issues_map` — unless an exception
escapes the per-issue work, in which case the `except` clause logs and the
commit is skipped.

Python dicts are modelled as association lists (`List (Nat × _)`) with
insertion-order iteration: `dictInsert` replaces in place on an existing key
and appends otherwise, exactly like a Python dict; `dictGet` is `dict.get`.
Issue/comment records keep the fields the diff logic reads (`key`, `title`,
`state`, comment `body`); payload-only fields (url, timestamps, description)
are carried by neither table nor branch condition in the source and are
omitted.  Comment fetching (`project.issues.get(iid).notes.list()` /
`issue.get_comments()`) is an injected function returning `Except`, so a
raising fetch is `Except.error`.  Notification delivery
(`_send_notification`) is modelled with its channel dispatch and its
catch-all `except` blocks: the transport outcome is injected, and the
function totalises it into a `SendResult` (sent / logged warning / logged
error), mirroring that the Python function never lets an exception escape.
-/

/-- One fetched issue record, with the fields the diff logic reads:
`iid`/`number` (here `key`), `title`, `state`. -/
structure Issue where
  key : Nat
  title : String
  state : String
  deriving DecidableEq

/-- One fetched comment record; the diff logic reads only the body text. -/
structure Comment where
  body : String
  deriving DecidableEq

/-- The five change-detection branches of `_check_gitlab` / `_check_github`. -/
inductive EventKind
  | created
  | titleOrStateChanged
  | reopened
  | closed
  | commentAdded
  deriving DecidableEq

/-- A change event, i.e. the payload handed to `_send_notification`:
`status` is the payload's `"status"` tag, `issue_id` its `"issue_id"`,
`comment` the body of the newest comment for comment events. -/
structure Event where
  kind : EventKind
  status : String
  title : String
  issue_id : Nat
  comment : Option String
  deriving DecidableEq

/-- Python `dict.get(k)` on an association list. -/
def dictGet (m : List (Nat × α)) (k : Nat) : Option α :=
  (m.find? (fun p => p.1 = k)).map (fun p => p.2)

/-- Python `d[k] = v`: replace in place if the key exists, append otherwise. -/
def dictInsert (m : List (Nat × α)) (k : Nat) (v : α) : List (Nat × α) :=
  if m.any (fun p => p.1 = k) then
    m.map (fun p => if p.1 = k then (k, v) else p)
  else m ++ [(k, v)]

/-- `{issue.iid: issue for issue in issues}` starting from `m`. -/
def buildMapFrom (m : List (Nat × Issue)) : List Issue → List (Nat × Issue)
  | [] => m
  | i :: rest => buildMapFrom (dictInsert m i.key i) rest

/-- `current_issues_map = {issue.iid: issue for issue in issues}`. -/
def buildMap (issues : List Issue) : List (Nat × Issue) :=
  buildMapFrom [] issues

/-- Concatenation of `f` over a list; used to state event-sequence lemmas. -/
def concatMap (f : α → List β) : List α → List β
  | [] => []
  | a :: l => f a ++ concatMap f l

/-- Python `str.splitlines` (universal newlines restricted to the separators
that can occur in issue text: `\r\n`, `\r`, `\n`); a trailing separator does
not open a final empty line. -/
def splitlinesGo : List Char → List Char → List String
  | [], acc => if acc.isEmpty then [] else [String.mk acc.reverse]
  | '\r' :: '\n' :: rest, acc => String.mk acc.reverse :: splitlinesGo rest []
  | '\r' :: rest, acc => String.mk acc.reverse :: splitlinesGo rest []
  | '\n' :: rest, acc => String.mk acc.reverse :: splitlinesGo rest []
  | c :: rest, acc => splitlinesGo rest (c :: acc)

/-- `text.splitlines()`. -/
def splitlines (s : String) : List String :=
  splitlinesGo s.data []

/-- `truncate_by_lines` from `_send_notification`: empty text gives `''`;
more than `max_lines` lines gives the first `max_lines` lines joined by
newlines with `'...'` appended; otherwise the text is returned unchanged. -/
def truncate_by_lines (text : String) (max_lines : Nat) : String :=
  if text = "" then ""
  else
    let lines := splitlines text
    if lines.length > max_lines then
      String.intercalate "\n" (lines.take max_lines) ++ "..."
    else text

/-- Outcome of the underlying transport call made by one channel branch of
`_send_notification` (webhook / SMTP / HTTP POST, including its config-key
reads): it returns, raises `KeyError`, or raises something else. -/
inductive TransportResult
  | ok
  | raisedKeyError
  | raised
  deriving DecidableEq

/-- What `_send_notification` did: it either warned (unset or unrecognized
`notification.type`), sent, or caught an exception and logged an error. -/
inductive SendResult
  | warnedNoType
  | sent
  | keyErrorLogged
  | errorLogged
  | warnedInvalidType
  deriving DecidableEq

/-- `_send_notification`: `ntype` is `config.get('notification', 'type',
fallback=None)`; `transport` is the channel's transport behaviour.  The
`try`/`except` totalises every transport exception into a logged result. -/
def sendNotification (ntype : Option String)
    (transport : String → Event → TransportResult) (ev : Event) : SendResult :=
  match ntype with
  | none => SendResult.warnedNoType
  | some t =>
    if t = "slack" ∨ t = "mail" ∨ t = "api" then
      match transport t ev with
      | TransportResult.ok => SendResult.sent
      | TransportResult.raisedKeyError => SendResult.keyErrorLogged
      | TransportResult.raised => SendResult.errorLogged
    else SendResult.warnedInvalidType

/-- `self.previous_issues` and `self.previous_comments`. -/
structure MonitorState where
  previous_issues : List (Nat × Issue)
  previous_comments : List (Nat × List Comment)
  deriving DecidableEq

/-- In-cycle accumulator: events emitted so far, delivery results so far, and
the current `previous_comments` (mutated in place by the Python loop). -/
structure CycleAcc where
  events : List Event
  sends : List SendResult
  pc : List (Nat × List Comment)
  deriving DecidableEq

/-- Result of one poll cycle: the tables after the cycle, the emitted events,
the delivery results, and whether the cycle ended in the `except` clause. -/
structure CycleResult where
  state : MonitorState
  events : List Event
  sends : List SendResult
  errored : Bool
  deriving DecidableEq

/-- A comment fetch that always succeeds, returning `g k` for issue `k`. -/
def okFC (g : Nat → List Comment) : Nat → Except Unit (List Comment) :=
  fun k => Except.ok (g k)

/-- New-issue payload: `status` is `"등록"`. -/
def createdEvent (i : Issue) : Event :=
  ⟨EventKind.created, "등록", i.title, i.key, none⟩

/-- Reopen payload: `status` is `"reopen"`. -/
def reopenedEvent (i : Issue) : Event :=
  ⟨EventKind.reopened, "reopen", i.title, i.key, none⟩

/-- Title/state-change payload: `status` is `"수정" if issue.state != 'closed'
else 'close'`. -/
def changedEvent (i : Issue) : Event :=
  ⟨EventKind.titleOrStateChanged, if i.state ≠ "closed" then "수정" else "close",
    i.title, i.key, none⟩

/-- New-comment payload: `status` is `"comment 등록"`, carrying the body of
`current_comments[-1]`. -/
def commentAddedEvent (i : Issue) (cur : List Comment) : Event :=
  ⟨EventKind.commentAdded, "comment 등록", i.title, i.key,
    some ((cur.getLast?.getD ⟨""⟩).body)⟩

/-- Disappeared-issue payload: `status` is `"close"`. -/
def closedEvent (i : Issue) : Event :=
  ⟨EventKind.closed, "close", i.title, i.key, none⟩

/-- Append one emitted event and the result of its `_send_notification` call. -/
def emitInto (ntype : Option String) (transport : String → Event → TransportResult)
    (acc : CycleAcc) (ev : Event) : CycleAcc :=
  ⟨acc.events ++ [ev], acc.sends ++ [sendNotification ntype transport ev], acc.pc⟩

/-- The `if not prev_issue / elif state-or-title changed` block of the per-issue
loop: `Created` for unseen keys, `Reopened` when state went closed → open
(`openState` is `'opened'` on GitLab, `'open'` on GitHub), otherwise the
generic change event; no event when title and state are unchanged. -/
def titleStateEvent (openState : String) (prevIssues : List (Nat × Issue))
    (key : Nat) (i : Issue) : Option Event :=
  match dictGet prevIssues key with
  | none => some (createdEvent i)
  | some prev =>
    if i.state ≠ prev.state ∨ i.title ≠ prev.title then
      if prev.state = "closed" ∧ i.state = openState then some (reopenedEvent i)
      else some (changedEvent i)
    else none

/-- Apply the title/state block of one loop iteration to the accumulator. -/
def stepTS (openState : String) (ntype : Option String)
    (transport : String → Event → TransportResult)
    (prevIssues : List (Nat × Issue)) (key : Nat) (i : Issue)
    (acc : CycleAcc) : CycleAcc :=
  match titleStateEvent openState prevIssues key i with
  | some ev => emitInto ntype transport acc ev
  | none => acc

/-- The comment block of one loop iteration: if the freshly fetched comment
list is longer than the recorded one (`[]` for unseen keys), emit
`CommentAdded` and record the new list. -/
def stepComment (ntype : Option String)
    (transport : String → Event → TransportResult)
    (key : Nat) (i : Issue) (cur : List Comment) (acc : CycleAcc) : CycleAcc :=
  if cur.length > ((dictGet acc.pc key).getD []).length then
    ⟨(emitInto ntype transport acc (commentAddedEvent i cur)).events,
     (emitInto ntype transport acc (commentAddedEvent i cur)).sends,
     dictInsert acc.pc key cur⟩
  else acc

/-- The `for issue_iid, issue in current_issues_map.items()` loop.  A raising
comment fetch propagates to the cycle's `except` clause: the loop stops and
reports `true`, keeping whatever was already emitted and recorded. -/
def presentLoop (openState : String) (ntype : Option String)
    (transport : String → Event → TransportResult)
    (fc : Nat → Except Unit (List Comment))
    (prevIssues : List (Nat × Issue)) :
    List (Nat × Issue) → CycleAcc → CycleAcc × Bool
  | [], acc => (acc, false)
  | (key, i) :: rest, acc =>
    let acc1 := stepTS openState ntype transport prevIssues key i acc
    match fc i.key with
    | Except.error _ => (acc1, true)
    | Except.ok cur =>
      presentLoop openState ntype transport fc prevIssues rest
        (stepComment ntype transport key i cur acc1)

/-- One iteration of the `for issue_iid, issue in self.previous_issues.items()`
loop: emit `Closed` iff the key is absent from the new map. -/
def closedStep (ntype : Option String)
    (transport : String → Event → TransportResult)
    (currentMap : List (Nat × Issue)) (key : Nat) (i : Issue)
    (acc : CycleAcc) : CycleAcc :=
  if (dictGet currentMap key).isSome then acc
  else emitInto ntype transport acc (closedEvent i)

/-- The disappeared-issue loop over the previous table. -/
def closedLoop (ntype : Option String)
    (transport : String → Event → TransportResult)
    (currentMap : List (Nat × Issue)) :
    List (Nat × Issue) → CycleAcc → CycleAcc
  | [], acc => acc
  | (key, i) :: rest, acc =>
    closedLoop ntype transport currentMap rest
      (closedStep ntype transport currentMap key i acc)

/-- The bootstrap seeding loop `for issue in issues:
previous_comments[issue.iid] = fetch(issue)`; a raising fetch stops it and
reports `true`. -/
def seedLoop (fc : Nat → Except Unit (List Comment)) :
    List Issue → List (Nat × List Comment) → List (Nat × List Comment) × Bool
  | [], pc => (pc, false)
  | i :: rest, pc =>
    match fc i.key with
    | Except.error _ => (pc, true)
    | Except.ok cs => seedLoop fc rest (dictInsert pc i.key cs)

/-- Pure form of a completed bootstrap seeding with fetch results `g`. -/
def seedFrom (g : Nat → List Comment) (pc : List (Nat × List Comment)) :
    List Issue → List (Nat × List Comment)
  | [] => pc
  | i :: rest => seedFrom g (dictInsert pc i.key (g i.key)) rest

/-- One poll cycle (`_check_gitlab` / `_check_github` body).  If
`previous_issues` is empty (Python `if not self.previous_issues`), the
bootstrap branch replaces the issues table, seeds comments and emits nothing.
Otherwise the per-issue loop runs, then — if no exception was raised — the
disappeared-issue loop, and only then is `previous_issues` committed; on an
exception the `except` clause leaves `previous_issues` at its pre-cycle
value (the comment table keeps its in-place mutations). -/
def checkCycle (openState : String) (ntype : Option String)
    (transport : String → Event → TransportResult)
    (fc : Nat → Except Unit (List Comment))
    (st : MonitorState) (fetched : List Issue) : CycleResult :=
  let currentMap := buildMap fetched
  if st.previous_issues.isEmpty then
    let seeded := seedLoop fc fetched st.previous_comments
    ⟨⟨currentMap, seeded.1⟩, [], [], seeded.2⟩
  else
    let r := presentLoop openState ntype transport fc st.previous_issues
      currentMap ⟨[], [], st.previous_comments⟩
    if r.2 then ⟨⟨st.previous_issues, r.1.pc⟩, r.1.events, r.1.sends, true⟩
    else
      let f := closedLoop ntype transport currentMap st.previous_issues r.1
      ⟨⟨currentMap, f.pc⟩, f.events, f.sends, false⟩

/-- `_check_gitlab`: GitLab reports open issues with state `'opened'`. -/
def checkGitlab (ntype : Option String)
    (transport : String → Event → TransportResult)
    (fc : Nat → Except Unit (List Comment))
    (st : MonitorState) (fetched : List Issue) : CycleResult :=
  checkCycle "opened" ntype transport fc st fetched

/-- `_check_github`: GitHub reports open issues with state `'open'`. -/
def checkGithub (ntype : Option String)
    (transport : String → Event → TransportResult)
    (fc : Nat → Except Unit (List Comment))
    (st : MonitorState) (fetched : List Issue) : CycleResult :=
  checkCycle "open" ntype transport fc st fetched

/-- Keys of a table determine their issue's own key (true of every table the
program builds, since `current_issues_map` maps `issue.iid` to `issue`). -/
def keyConsistent (m : List (Nat × Issue)) : Prop :=
  ∀ p ∈ m, p.2.key = p.1

/-- The table has no duplicate keys (true of every Python dict). -/
def keysNodup (m : List (Nat × Issue)) : Prop :=
  (m.map (fun p => p.1)).Nodup

/-- The events one present-issue loop iteration contributes, as a pure
function of the pre-cycle tables. -/
def itemBody (openState : String) (prevIssues : List (Nat × Issue))
    (pc : List (Nat × List Comment)) (g : Nat → List Comment)
    (p : Nat × Issue) : List Event :=
  (titleStateEvent openState prevIssues p.1 p.2).toList ++
    (if (g p.2.key).length > ((dictGet pc p.1).getD []).length then
      [commentAddedEvent p.2 (g p.2.key)] else [])

/-- The events the disappeared-issue loop contributes for one previous-table
entry. -/
def closedBody (currentMap : List (Nat × Issue)) (p : Nat × Issue) : List Event :=
  if (dictGet currentMap p.1).isSome then [] else [closedEvent p.2]

/-- The status-tag table actually implemented by the event constructors. -/
def statusTagOk (e : Event) : Prop :=
  (e.kind = EventKind.created → e.status = "등록") ∧
  (e.kind = EventKind.reopened → e.status = "reopen") ∧
  (e.kind = EventKind.closed → e.status = "close") ∧
  (e.kind = EventKind.commentAdded → e.status = "comment 등록") ∧
  (e.kind = EventKind.titleOrStateChanged → e.status = "수정" ∨ e.status = "close")

/-- Transport that always succeeds. -/
def trOk : String → Event → TransportResult := fun _ _ => TransportResult.ok

/-- Transport that always raises. -/
def trBoom : String → Event → TransportResult := fun _ _ => TransportResult.raised

/-- Comment fetch returning no comments for any issue. -/
def gNone : Nat → List Comment := fun _ => []

/-- Fixture issues. -/
def issueA : Issue := ⟨1, "A", "opened"⟩

def issueAClosed : Issue := ⟨1, "A", "closed"⟩

def issueB : Issue := ⟨2, "B", "opened"⟩

def issueBClosedGh : Issue := ⟨2, "B", "closed"⟩

def issueBOpenGh : Issue := ⟨2, "B", "open"⟩

/-- The empty process-start state. -/
def st0 : MonitorState := ⟨[], []⟩

/-- State after a first GitLab cycle that fetched `[issueA]`. -/
def st1c : MonitorState :=
  (checkGitlab none trOk (okFC gNone) st0 [issueA]).state

/-- State after a second cycle in which every issue disappeared. -/
def st2c : MonitorState :=
  (checkGitlab none trOk (okFC gNone) st1c []).state

/-- Two-known-issues state for the partial-update counterexample. -/
def stC2 : MonitorState :=
  ⟨[(1, issueA), (2, issueB)], [(1, []), (2, [])]⟩

/-- Comment fetch that raises for issue 2 and finds one comment otherwise. -/
def fcC2 : Nat → Except Unit (List Comment) :=
  fun k => if k = 2 then Except.error () else Except.ok [⟨"c1"⟩]

/-- The events of one cycle concerning issue key `k`. -/
def eventsFor (k : Nat) (evs : List Event) : List Event :=
  evs.filter (fun e => e.issue_id == k)

/-- The events of one cycle concerning issue key `k` with branch kind `kd`. -/
def eventsOfKindFor (kd : EventKind) (k : Nat) (evs : List Event) : List Event :=
  (eventsFor k evs).filter (fun e => e.kind == kd)

/-- Comment fetch that finds exactly one comment for every issue. -/
def gOne : Nat → List Comment := fun _ => [⟨"c1"⟩]

/-- One-known-issue state with no recorded comments. -/
def stP : MonitorState := ⟨[(1, issueA)], []⟩

/-- One-known-issue state with one recorded comment. -/
def stQ : MonitorState := ⟨[(1, issueA)], [(1, [⟨"c0"⟩])]⟩

/-- GitLab reopen fixture: issue 1 recorded closed. -/
def stRe : MonitorState := ⟨[(1, issueAClosed)], []⟩

/-- GitHub reopen fixture: issue 2 recorded closed. -/
def stReGh : MonitorState := ⟨[(2, issueBClosedGh)], []⟩

theorem dictGet_nil (k : Nat) : dictGet ([] : List (Nat × α)) k = none := rfl

theorem dictGet_cons (p : Nat × α) (m : List (Nat × α)) (k : Nat) :
    dictGet (p :: m) k = if p.1 = k then some p.2 else dictGet m k := by
  by_cases h : p.1 = k <;> simp [dictGet, List.find?_cons, h]

theorem dictGet_map_replace_ne {k k' : Nat} {v : α} (hne : k' ≠ k) :
    ∀ m : List (Nat × α),
      dictGet (m.map (fun p => if p.1 = k then (k, v) else p)) k' = dictGet m k' := by
  intro m
  induction m with
  | nil => rfl
  | cons p m ih =>
    by_cases hp : p.1 = k
    · rw [List.map_cons, if_pos hp, dictGet_cons, dictGet_cons, ih,
        if_neg (show ((k, v).1 = k') → False from fun h => hne (Eq.symm h)),
        if_neg (show (p.1 = k') → False from fun h => hne (h ▸ hp))]
    · rw [List.map_cons, if_neg hp, dictGet_cons, dictGet_cons, ih]

theorem dictGet_append_singleton_ne {k k' : Nat} {v : α} (hne : k' ≠ k) :
    ∀ m : List (Nat × α), dictGet (m ++ [(k, v)]) k' = dictGet m k' := by
  intro m
  induction m with
  | nil =>
    simp only [List.nil_append, dictGet_cons, dictGet_nil]
    rw [if_neg (Ne.symm hne)]
  | cons p m ih =>
    simp only [List.cons_append, dictGet_cons]
    by_cases hq : p.1 = k'
    · simp [hq]
    · simp only [hq, if_false]
      exact ih

theorem dictGet_map_replace_self {k : Nat} {v : α} :
    ∀ m : List (Nat × α), m.any (fun p => p.1 = k) = true →
      dictGet (m.map (fun p => if p.1 = k then (k, v) else p)) k = some v := by
  intro m
  induction m with
  | nil => intro h; simp at h
  | cons p m ih =>
    intro h
    by_cases hp : p.1 = k
    · simp [List.map_cons, hp, dictGet_cons]
    · simp only [List.any_cons, Bool.or_eq_true, decide_eq_true_eq] at h
      rcases h with h | h
      · exact absurd h hp
      · rw [List.map_cons, if_neg hp, dictGet_cons, if_neg hp]
        exact ih h

theorem dictGet_append_singleton_self {k : Nat} {v : α} :
    ∀ m : List (Nat × α), m.any (fun p => p.1 = k) = false →
      dictGet (m ++ [(k, v)]) k = some v := by
  intro m
  induction m with
  | nil => intro _; simp [dictGet_cons]
  | cons p m ih =>
    intro h
    simp only [List.any_cons, Bool.or_eq_false_iff, decide_eq_false_iff_not] at h
    simp only [List.cons_append, dictGet_cons, if_neg h.1]
    exact ih h.2

theorem dictGet_dictInsert_self (m : List (Nat × α)) (k : Nat) (v : α) :
    dictGet (dictInsert m k v) k = some v := by
  unfold dictInsert
  by_cases h : m.any (fun p => p.1 = k)
  · rw [if_pos h]; exact dictGet_map_replace_self m h
  · rw [if_neg h]
    exact dictGet_append_singleton_self m (Bool.eq_false_iff.mpr h)

theorem dictGet_dictInsert_ne (m : List (Nat × α)) (k : Nat) (v : α) (k' : Nat)
    (hne : k' ≠ k) : dictGet (dictInsert m k v) k' = dictGet m k' := by
  unfold dictInsert
  by_cases h : m.any (fun p => p.1 = k)
  · rw [if_pos h]; exact dictGet_map_replace_ne hne m
  · rw [if_neg h]; exact dictGet_append_singleton_ne hne m

theorem dictGet_eq_none_forall {m : List (Nat × α)} {k : Nat}
    (h : dictGet m k = none) : ∀ p ∈ m, p.1 ≠ k := by
  induction m with
  | nil => intro p hp; simp at hp
  | cons q m ih =>
    intro p hp
    rw [dictGet_cons] at h
    by_cases hq : q.1 = k
    · rw [if_pos hq] at h; exact absurd h (by simp)
    · rw [if_neg hq] at h
      rcases List.mem_cons.mp hp with rfl | hp'
      · exact hq
      · exact ih h p hp'

theorem dictGet_some_mem {m : List (Nat × α)} {k : Nat} {v : α}
    (h : dictGet m k = some v) : (k, v) ∈ m := by
  induction m with
  | nil => simp [dictGet_nil] at h
  | cons q m ih =>
    rw [dictGet_cons] at h
    by_cases hq : q.1 = k
    · rw [if_pos hq] at h
      obtain ⟨a, b⟩ := q
      simp only at hq
      simp only [Option.some.injEq] at h
      subst hq; subst h
      exact List.mem_cons_self _ _
    · rw [if_neg hq] at h
      exact List.mem_cons_of_mem _ (ih h)

theorem keyConsistent_dictInsert {m : List (Nat × Issue)} (h : keyConsistent m)
    (i : Issue) : keyConsistent (dictInsert m i.key i) := by
  unfold dictInsert
  by_cases hm : m.any (fun p => p.1 = i.key)
  · rw [if_pos hm]
    intro p hp
    rcases List.mem_map.mp hp with ⟨q, hq, rfl⟩
    by_cases hqk : q.1 = i.key
    · simp [hqk]
    · simpa [hqk] using h q hq
  · rw [if_neg hm]
    intro p hp
    rcases List.mem_append.mp hp with hp' | hp'
    · exact h p hp'
    · rcases List.mem_singleton.mp hp' with rfl; rfl

theorem nodup_append_singleton {l : List Nat} {k : Nat} (h : l.Nodup)
    (hk : k ∉ l) : (l ++ [k]).Nodup := by
  induction l with
  | nil => simp
  | cons a l ih =>
    rw [List.nodup_cons] at h
    simp only [List.mem_cons, not_or] at hk
    rw [List.cons_append, List.nodup_cons]
    refine ⟨?_, ih h.2 hk.2⟩
    simp only [List.mem_append, List.mem_singleton, not_or]
    exact ⟨h.1, fun hak => hk.1 hak.symm⟩

theorem keysNodup_dictInsert {m : List (Nat × Issue)} (h : keysNodup m)
    (i : Issue) : keysNodup (dictInsert m i.key i) := by
  unfold dictInsert keysNodup
  by_cases hm : m.any (fun p => p.1 = i.key)
  · rw [if_pos hm, List.map_map]
    have : ((fun p : Nat × Issue => p.1) ∘ fun p => if p.1 = i.key then (i.key, i) else p) =
        fun p : Nat × Issue => p.1 := by
      funext p
      by_cases hp : p.1 = i.key <;> simp [hp]
    rw [this]; exact h
  · rw [if_neg hm, List.map_append]
    refine nodup_append_singleton h ?_
    intro hmem
    rcases List.mem_map.mp hmem with ⟨q, hq, hqk⟩
    have : m.any (fun p => p.1 = i.key) = true := by
      simp only [List.any_eq_true, decide_eq_true_eq]
      exact ⟨q, hq, hqk⟩
    exact hm this

theorem dictInsert_keys_pred {m : List (Nat × Issue)} {k a : Nat} {v : Issue}
    (h : ∀ q ∈ m, q.1 ≠ k) (ha : a ≠ k) : ∀ p ∈ dictInsert m a v, p.1 ≠ k := by
  unfold dictInsert
  by_cases hm : m.any (fun p => p.1 = a)
  · rw [if_pos hm]
    intro p hp
    rcases List.mem_map.mp hp with ⟨q, hq, rfl⟩
    by_cases hqa : q.1 = a <;> simp [hqa, ha, h q hq]
  · rw [if_neg hm]
    intro p hp
    rcases List.mem_append.mp hp with hp' | hp'
    · exact h p hp'
    · rcases List.mem_singleton.mp hp' with rfl; exact ha

theorem buildMapFrom_keyConsistent :
    ∀ (l : List Issue) (m : List (Nat × Issue)), keyConsistent m →
      keyConsistent (buildMapFrom m l) := by
  intro l
  induction l with
  | nil => intro m h; exact h
  | cons i rest ih =>
    intro m h
    exact ih _ (keyConsistent_dictInsert h i)

theorem buildMapFrom_keysNodup :
    ∀ (l : List Issue) (m : List (Nat × Issue)), keysNodup m →
      keysNodup (buildMapFrom m l) := by
  intro l
  induction l with
  | nil => intro m h; exact h
  | cons i rest ih =>
    intro m h
    exact ih _ (keysNodup_dictInsert h i)

theorem buildMap_keyConsistent (l : List Issue) : keyConsistent (buildMap l) :=
  buildMapFrom_keyConsistent l [] (by intro p hp; simp at hp)

theorem buildMap_keysNodup (l : List Issue) : keysNodup (buildMap l) :=
  buildMapFrom_keysNodup l [] (by simp [keysNodup])

theorem buildMapFrom_get_absent {k : Nat} :
    ∀ (l : List Issue) (m : List (Nat × Issue)), (∀ i ∈ l, i.key ≠ k) →
      dictGet (buildMapFrom m l) k = dictGet m k := by
  intro l
  induction l with
  | nil => intro m _; rfl
  | cons i rest ih =>
    intro m h
    have hik : i.key ≠ k := h i (List.mem_cons_self _ _)
    rw [buildMapFrom, ih _ (fun j hj => h j (List.mem_cons_of_mem _ hj)),
      dictGet_dictInsert_ne _ _ _ _ (Ne.symm hik)]

theorem buildMap_get_absent {k : Nat} {l : List Issue}
    (h : ∀ i ∈ l, i.key ≠ k) : dictGet (buildMap l) k = none :=
  buildMapFrom_get_absent l [] h

theorem buildMapFrom_keys_pred {k : Nat} :
    ∀ (l : List Issue) (m : List (Nat × Issue)),
      (∀ q ∈ m, q.1 ≠ k) → (∀ i ∈ l, i.key ≠ k) →
      ∀ p ∈ buildMapFrom m l, p.1 ≠ k := by
  intro l
  induction l with
  | nil => intro m hm _; exact hm
  | cons i rest ih =>
    intro m hm h
    exact ih _ (dictInsert_keys_pred hm (h i (List.mem_cons_self _ _)))
      (fun j hj => h j (List.mem_cons_of_mem _ hj))

theorem buildMap_keys_pred {k : Nat} {l : List Issue}
    (h : ∀ i ∈ l, i.key ≠ k) : ∀ p ∈ buildMap l, p.1 ≠ k :=
  buildMapFrom_keys_pred l [] (by intro q hq; simp at hq) h

theorem concatMap_nil_of {f : α → List β} :
    ∀ {l : List α}, (∀ a ∈ l, f a = []) → concatMap f l = [] := by
  intro l
  induction l with
  | nil => intro _; rfl
  | cons a rest ih =>
    intro h
    rw [concatMap, h a (List.mem_cons_self _ _), List.nil_append]
    exact ih (fun b hb => h b (List.mem_cons_of_mem _ hb))

theorem concatMap_congr {f f' : α → List β} :
    ∀ {l : List α}, (∀ a ∈ l, f a = f' a) → concatMap f l = concatMap f' l := by
  intro l
  induction l with
  | nil => intro _; rfl
  | cons a rest ih =>
    intro h
    rw [concatMap, concatMap, h a (List.mem_cons_self _ _),
      ih (fun b hb => h b (List.mem_cons_of_mem _ hb))]

theorem mem_concatMap {f : α → List β} {b : β} :
    ∀ {l : List α}, b ∈ concatMap f l ↔ ∃ a ∈ l, b ∈ f a := by
  intro l
  induction l with
  | nil => simp [concatMap]
  | cons a rest ih =>
    simp only [concatMap, List.mem_append, ih, List.mem_cons]
    constructor
    · rintro (h | ⟨c, hc, hb⟩)
      · exact ⟨a, Or.inl rfl, h⟩
      · exact ⟨c, Or.inr hc, hb⟩
    · rintro ⟨c, rfl | hc, hb⟩
      · exact Or.inl hb
      · exact Or.inr ⟨c, hc, hb⟩

theorem filter_concatMap {f : α → List β} (q : β → Bool) :
    ∀ (l : List α), (concatMap f l).filter q = concatMap (fun a => (f a).filter q) l := by
  intro l
  induction l with
  | nil => rfl
  | cons a rest ih =>
    rw [concatMap, concatMap, List.filter_append, ih]

theorem concatMap_single {f : Nat × Issue → List β} {k : Nat} {v : Issue} :
    ∀ {l : List (Nat × Issue)}, (l.map (fun p => p.1)).Nodup →
      dictGet l k = some v → (∀ p ∈ l, p.1 ≠ k → f p = []) →
      concatMap f l = f (k, v) := by
  intro l
  induction l with
  | nil => intro _ h _; simp [dictGet_nil] at h
  | cons q rest ih =>
    intro hnd hget h0
    rw [List.map_cons, List.nodup_cons] at hnd
    rw [dictGet_cons] at hget
    by_cases hq : q.1 = k
    · rw [if_pos hq] at hget
      have hrest : concatMap f rest = [] := by
        refine concatMap_nil_of ?_
        intro p hp
        refine h0 p (List.mem_cons_of_mem _ hp) ?_
        intro hpk
        exact hnd.1 (by rw [hq, ← hpk]; exact List.mem_map_of_mem _ hp)
      obtain ⟨a, b⟩ := q
      simp only at hq
      simp only [Option.some.injEq] at hget
      subst hq; subst hget
      rw [concatMap, hrest, List.append_nil]
    · rw [if_neg hq] at hget
      rw [concatMap, h0 q (List.mem_cons_self _ _) hq, List.nil_append]
      exact ih hnd.2 hget (fun p hp => h0 p (List.mem_cons_of_mem _ hp))

theorem emitInto_events (nt : Option String) (tr : String → Event → TransportResult)
    (acc : CycleAcc) (ev : Event) :
    (emitInto nt tr acc ev).events = acc.events ++ [ev] := rfl

theorem emitInto_pc (nt : Option String) (tr : String → Event → TransportResult)
    (acc : CycleAcc) (ev : Event) : (emitInto nt tr acc ev).pc = acc.pc := rfl

theorem stepTS_pc (os : String) (nt : Option String)
    (tr : String → Event → TransportResult) (prev : List (Nat × Issue))
    (key : Nat) (i : Issue) (acc : CycleAcc) :
    (stepTS os nt tr prev key i acc).pc = acc.pc := by
  unfold stepTS
  cases titleStateEvent os prev key i <;> rfl

theorem stepTS_events (os : String) (nt : Option String)
    (tr : String → Event → TransportResult) (prev : List (Nat × Issue))
    (key : Nat) (i : Issue) (acc : CycleAcc) :
    (stepTS os nt tr prev key i acc).events =
      acc.events ++ (titleStateEvent os prev key i).toList := by
  unfold stepTS
  cases titleStateEvent os prev key i <;> simp [emitInto, Option.toList]

theorem stepComment_pc (nt : Option String) (tr : String → Event → TransportResult)
    (key : Nat) (i : Issue) (cur : List Comment) (acc : CycleAcc) :
    (stepComment nt tr key i cur acc).pc =
      if cur.length > ((dictGet acc.pc key).getD []).length then
        dictInsert acc.pc key cur
      else acc.pc := by
  unfold stepComment
  by_cases h : cur.length > ((dictGet acc.pc key).getD []).length <;> simp [h]

theorem stepComment_events (nt : Option String) (tr : String → Event → TransportResult)
    (key : Nat) (i : Issue) (cur : List Comment) (acc : CycleAcc) :
    (stepComment nt tr key i cur acc).events =
      acc.events ++
        (if cur.length > ((dictGet acc.pc key).getD []).length then
          [commentAddedEvent i cur] else []) := by
  unfold stepComment
  by_cases h : cur.length > ((dictGet acc.pc key).getD []).length <;>
    simp [h, emitInto]

theorem closedStep_pc (nt : Option String) (tr : String → Event → TransportResult)
    (cur : List (Nat × Issue)) (key : Nat) (i : Issue) (acc : CycleAcc) :
    (closedStep nt tr cur key i acc).pc = acc.pc := by
  unfold closedStep
  by_cases h : (dictGet cur key).isSome <;> simp [h, emitInto]

theorem closedStep_events (nt : Option String) (tr : String → Event → TransportResult)
    (cur : List (Nat × Issue)) (key : Nat) (i : Issue) (acc : CycleAcc) :
    (closedStep nt tr cur key i acc).events =
      acc.events ++ closedBody cur (key, i) := by
  unfold closedStep closedBody
  by_cases h : (dictGet cur key).isSome <;> simp [h, emitInto]

theorem presentLoop_no_error (os : String) (nt : Option String)
    (tr : String → Event → TransportResult) (g : Nat → List Comment)
    (prev : List (Nat × Issue)) :
    ∀ (items : List (Nat × Issue)) (acc : CycleAcc),
      (presentLoop os nt tr (okFC g) prev items acc).2 = false := by
  intro items
  induction items with
  | nil => intro acc; rfl
  | cons p rest ih =>
    intro acc
    obtain ⟨key, i⟩ := p
    exact ih _

theorem presentLoop_events_flat (os : String) (nt : Option String)
    (tr : String → Event → TransportResult) (g : Nat → List Comment)
    (prev : List (Nat × Issue)) :
    ∀ (items : List (Nat × Issue)) (acc : CycleAcc),
      (∀ p ∈ items, p.2.key = p.1) → (items.map (fun p => p.1)).Nodup →
      (presentLoop os nt tr (okFC g) prev items acc).1.events =
        acc.events ++ concatMap (itemBody os prev acc.pc g) items := by
  intro items
  induction items with
  | nil => intro acc _ _; simp [presentLoop, concatMap]
  | cons p rest ih =>
    intro acc hcons hnd
    obtain ⟨key, i⟩ := p
    rw [List.map_cons, List.nodup_cons] at hnd
    show (presentLoop os nt tr (okFC g) prev rest
      (stepComment nt tr key i (g i.key) (stepTS os nt tr prev key i acc))).1.events = _
    rw [ih _ (fun q hq => hcons q (List.mem_cons_of_mem _ hq)) hnd.2]
    have hpc : ∀ q ∈ rest,
        itemBody os prev
          (stepComment nt tr key i (g i.key) (stepTS os nt tr prev key i acc)).pc g q =
        itemBody os prev acc.pc g q := by
      intro q hq
      have hqk : q.1 ≠ key := by
        intro hh
        apply hnd.1
        show key ∈ List.map (fun p => p.1) rest
        rw [← hh]
        exact List.mem_map_of_mem _ hq
      unfold itemBody
      rw [stepComment_pc, stepTS_pc]
      by_cases hcond : (g i.key).length > ((dictGet acc.pc key).getD []).length
      · rw [if_pos hcond, dictGet_dictInsert_ne _ _ _ _ hqk]
      · rw [if_neg hcond]
    rw [concatMap_congr hpc, stepComment_events, stepTS_events, stepTS_pc, concatMap]
    unfold itemBody
    simp [List.append_assoc]

theorem presentLoop_pc_absent (os : String) (nt : Option String)
    (tr : String → Event → TransportResult)
    (fc : Nat → Except Unit (List Comment)) (prev : List (Nat × Issue)) (k : Nat) :
    ∀ (items : List (Nat × Issue)) (acc : CycleAcc), (∀ p ∈ items, p.1 ≠ k) →
      dictGet (presentLoop os nt tr fc prev items acc).1.pc k = dictGet acc.pc k := by
  intro items
  induction items with
  | nil => intro acc _; rfl
  | cons p rest ih =>
    intro acc h
    obtain ⟨key, i⟩ := p
    have hkey : key ≠ k := h (key, i) (List.mem_cons_self _ _)
    simp only [presentLoop]
    cases hfc : fc i.key with
    | error e => simp only [stepTS_pc]
    | ok cur =>
      rw [ih _ (fun q hq => h q (List.mem_cons_of_mem _ hq)), stepComment_pc, stepTS_pc]
      by_cases hcond : cur.length > ((dictGet acc.pc key).getD []).length
      · rw [if_pos hcond, dictGet_dictInsert_ne _ _ _ _ (Ne.symm hkey)]
      · rw [if_neg hcond]

theorem presentLoop_pc_at_key (os : String) (nt : Option String)
    (tr : String → Event → TransportResult) (g : Nat → List Comment)
    (prev : List (Nat × Issue)) (k : Nat) :
    ∀ (items : List (Nat × Issue)) (acc : CycleAcc) (v : Issue),
      (∀ p ∈ items, p.2.key = p.1) → (items.map (fun p => p.1)).Nodup →
      dictGet items k = some v →
      dictGet (presentLoop os nt tr (okFC g) prev items acc).1.pc k =
        if (g k).length > ((dictGet acc.pc k).getD []).length then some (g k)
        else dictGet acc.pc k := by
  intro items
  induction items with
  | nil => intro acc v _ _ hget; rw [dictGet_nil] at hget; exact absurd hget (by simp)
  | cons p rest ih =>
    intro acc v hcons hnd hget
    obtain ⟨key, i⟩ := p
    rw [List.map_cons, List.nodup_cons] at hnd
    rw [dictGet_cons] at hget
    have hik : i.key = key := hcons (key, i) (List.mem_cons_self _ _)
    show dictGet (presentLoop os nt tr (okFC g) prev rest
      (stepComment nt tr key i (g i.key) (stepTS os nt tr prev key i acc))).1.pc k = _
    by_cases hq : key = k
    · have hrest : ∀ q ∈ rest, q.1 ≠ k := by
        intro q hq' hqk
        apply hnd.1
        show key ∈ List.map (fun p => p.1) rest
        rw [hq, ← hqk]
        exact List.mem_map_of_mem _ hq'
      rw [presentLoop_pc_absent os nt tr (okFC g) prev k rest _ hrest, stepComment_pc,
        stepTS_pc, hik, hq]
      by_cases hcond : (g k).length > ((dictGet acc.pc k).getD []).length
      · rw [if_pos hcond, if_pos hcond, dictGet_dictInsert_self]
      · rw [if_neg hcond, if_neg hcond]
    · rw [if_neg hq] at hget
      rw [ih _ v (fun q hq' => hcons q (List.mem_cons_of_mem _ hq')) hnd.2 hget]
      have hpck : dictGet (stepComment nt tr key i (g i.key)
          (stepTS os nt tr prev key i acc)).pc k = dictGet acc.pc k := by
        rw [stepComment_pc, stepTS_pc]
        by_cases hcond : (g i.key).length > ((dictGet acc.pc key).getD []).length
        · rw [if_pos hcond, dictGet_dictInsert_ne _ _ _ _ (fun h => hq h.symm)]
        · rw [if_neg hcond]
      rw [hpck]

theorem presentLoop_indep (os : String) (nt nt' : Option String)
    (tr tr' : String → Event → TransportResult)
    (fc : Nat → Except Unit (List Comment)) (prev : List (Nat × Issue)) :
    ∀ (items : List (Nat × Issue)) (acc acc' : CycleAcc),
      acc.events = acc'.events → acc.pc = acc'.pc →
      (presentLoop os nt tr fc prev items acc).1.events =
        (presentLoop os nt' tr' fc prev items acc').1.events ∧
      (presentLoop os nt tr fc prev items acc).1.pc =
        (presentLoop os nt' tr' fc prev items acc').1.pc ∧
      (presentLoop os nt tr fc prev items acc).2 =
        (presentLoop os nt' tr' fc prev items acc').2 := by
  intro items
  induction items with
  | nil => intro acc acc' he hp; exact ⟨he, hp, rfl⟩
  | cons p rest ih =>
    intro acc acc' he hp
    obtain ⟨key, i⟩ := p
    simp only [presentLoop]
    cases hfc : fc i.key with
    | error e =>
      refine ⟨?_, ?_, rfl⟩
      · rw [stepTS_events, stepTS_events, he]
      · rw [stepTS_pc, stepTS_pc, hp]
    | ok cur =>
      refine ih _ _ ?_ ?_
      · rw [stepComment_events, stepComment_events, stepTS_events, stepTS_events,
          stepTS_pc, stepTS_pc, he, hp]
      · rw [stepComment_pc, stepComment_pc, stepTS_pc, stepTS_pc, hp]

theorem closedLoop_pc (nt : Option String) (tr : String → Event → TransportResult)
    (cur : List (Nat × Issue)) :
    ∀ (prev : List (Nat × Issue)) (acc : CycleAcc),
      (closedLoop nt tr cur prev acc).pc = acc.pc := by
  intro prev
  induction prev with
  | nil => intro acc; rfl
  | cons p rest ih =>
    intro acc
    obtain ⟨key, i⟩ := p
    rw [closedLoop, ih, closedStep_pc]

theorem closedLoop_events (nt : Option String) (tr : String → Event → TransportResult)
    (cur : List (Nat × Issue)) :
    ∀ (prev : List (Nat × Issue)) (acc : CycleAcc),
      (closedLoop nt tr cur prev acc).events =
        acc.events ++ concatMap (closedBody cur) prev := by
  intro prev
  induction prev with
  | nil => intro acc; simp [closedLoop, concatMap]
  | cons p rest ih =>
    intro acc
    obtain ⟨key, i⟩ := p
    rw [closedLoop, ih, closedStep_events, concatMap, List.append_assoc]

theorem seedLoop_okFC (g : Nat → List Comment) :
    ∀ (l : List Issue) (pc : List (Nat × List Comment)),
      seedLoop (okFC g) l pc = (seedFrom g pc l, false) := by
  intro l
  induction l with
  | nil => intro pc; rfl
  | cons i rest ih => intro pc; exact ih _

theorem seedLoop_pc_absent (fc : Nat → Except Unit (List Comment)) (k : Nat) :
    ∀ (l : List Issue) (pc : List (Nat × List Comment)), (∀ i ∈ l, i.key ≠ k) →
      dictGet (seedLoop fc l pc).1 k = dictGet pc k := by
  intro l
  induction l with
  | nil => intro pc _; rfl
  | cons i rest ih =>
    intro pc h
    have hik : i.key ≠ k := h i (List.mem_cons_self _ _)
    simp only [seedLoop]
    cases hfc : fc i.key with
    | error e => rfl
    | ok cs =>
      rw [ih _ (fun j hj => h j (List.mem_cons_of_mem _ hj)),
        dictGet_dictInsert_ne _ _ _ _ (Ne.symm hik)]

theorem isEmpty_false_of_ne {l : List α} (h : l ≠ []) : l.isEmpty = false := by
  cases l with
  | nil => exact absurd rfl h
  | cons a t => rfl

theorem ne_nil_of_dictGet_some {m : List (Nat × α)} {k : Nat} {v : α}
    (h : dictGet m k = some v) : m ≠ [] := by
  intro hm
  rw [hm, dictGet_nil] at h
  exact absurd h (by simp)

theorem dictGet_key_eq {m : List (Nat × Issue)} (hcons : keyConsistent m)
    {k : Nat} {v : Issue} (h : dictGet m k = some v) : v.key = k :=
  hcons (k, v) (dictGet_some_mem h)

theorem statusTagOk_createdEvent (i : Issue) : statusTagOk (createdEvent i) := by
  simp [statusTagOk, createdEvent]

theorem statusTagOk_reopenedEvent (i : Issue) : statusTagOk (reopenedEvent i) := by
  simp [statusTagOk, reopenedEvent]

theorem statusTagOk_changedEvent (i : Issue) : statusTagOk (changedEvent i) := by
  unfold statusTagOk changedEvent
  by_cases h : i.state ≠ "closed" <;> simp [h]

theorem statusTagOk_commentAddedEvent (i : Issue) (cur : List Comment) :
    statusTagOk (commentAddedEvent i cur) := by
  simp [statusTagOk, commentAddedEvent]

theorem statusTagOk_closedEvent (i : Issue) : statusTagOk (closedEvent i) := by
  simp [statusTagOk, closedEvent]

theorem titleStateEvent_cases {os : String} {prev : List (Nat × Issue)} {key : Nat}
    {i : Issue} {ev : Event} (h : titleStateEvent os prev key i = some ev) :
    ev = createdEvent i ∨ ev = reopenedEvent i ∨ ev = changedEvent i := by
  unfold titleStateEvent at h
  split at h
  · simp only [Option.some.injEq] at h
    exact Or.inl h.symm
  · split at h
    · split at h
      · simp only [Option.some.injEq] at h
        exact Or.inr (Or.inl h.symm)
      · simp only [Option.some.injEq] at h
        exact Or.inr (Or.inr h.symm)
    · exact absurd h (by simp)

theorem titleStateEvent_statusOk {os : String} {prev : List (Nat × Issue)} {key : Nat}
    {i : Issue} {ev : Event} (h : titleStateEvent os prev key i = some ev) :
    statusTagOk ev := by
  rcases titleStateEvent_cases h with rfl | rfl | rfl
  · exact statusTagOk_createdEvent i
  · exact statusTagOk_reopenedEvent i
  · exact statusTagOk_changedEvent i

theorem titleStateEvent_issue_id {os : String} {prev : List (Nat × Issue)} {key : Nat}
    {i : Issue} {ev : Event} (h : titleStateEvent os prev key i = some ev) :
    ev.issue_id = i.key := by
  rcases titleStateEvent_cases h with rfl | rfl | rfl <;> rfl

theorem titleStateEvent_kind_not_closed {os : String} {prev : List (Nat × Issue)}
    {key : Nat} {i : Issue} {ev : Event} (h : titleStateEvent os prev key i = some ev) :
    ev.kind ≠ EventKind.closed := by
  rcases titleStateEvent_cases h with rfl | rfl | rfl <;> simp [createdEvent,
    reopenedEvent, changedEvent]

theorem titleStateEvent_kind_not_commentAdded {os : String} {prev : List (Nat × Issue)}
    {key : Nat} {i : Issue} {ev : Event} (h : titleStateEvent os prev key i = some ev) :
    ev.kind ≠ EventKind.commentAdded := by
  rcases titleStateEvent_cases h with rfl | rfl | rfl <;> simp [createdEvent,
    reopenedEvent, changedEvent]

theorem mem_itemBody_issue_id {os : String} {prev : List (Nat × Issue)}
    {pc : List (Nat × List Comment)} {g : Nat → List Comment} {p : Nat × Issue}
    {e : Event} (he : e ∈ itemBody os prev pc g p) : e.issue_id = p.2.key := by
  unfold itemBody at he
  rcases List.mem_append.mp he with he | he
  · cases hts : titleStateEvent os prev p.1 p.2 with
    | none => rw [hts] at he; simp [Option.toList] at he
    | some ev =>
      rw [hts] at he
      simp only [Option.toList, List.mem_singleton] at he
      rw [he]
      exact titleStateEvent_issue_id hts
  · by_cases hc : (g p.2.key).length > ((dictGet pc p.1).getD []).length
    · rw [if_pos hc] at he
      rcases List.mem_singleton.mp he with rfl
      rfl
    · rw [if_neg hc] at he
      simp at he

theorem mem_itemBody_statusOk {os : String} {prev : List (Nat × Issue)}
    {pc : List (Nat × List Comment)} {g : Nat → List Comment} {p : Nat × Issue}
    {e : Event} (he : e ∈ itemBody os prev pc g p) : statusTagOk e := by
  unfold itemBody at he
  rcases List.mem_append.mp he with he | he
  · cases hts : titleStateEvent os prev p.1 p.2 with
    | none => rw [hts] at he; simp [Option.toList] at he
    | some ev =>
      rw [hts] at he
      simp only [Option.toList, List.mem_singleton] at he
      rw [he]
      exact titleStateEvent_statusOk hts
  · by_cases hc : (g p.2.key).length > ((dictGet pc p.1).getD []).length
    · rw [if_pos hc] at he
      rcases List.mem_singleton.mp he with rfl
      exact statusTagOk_commentAddedEvent _ _
    · rw [if_neg hc] at he
      simp at he

theorem mem_itemBody_kind_not_closed {os : String} {prev : List (Nat × Issue)}
    {pc : List (Nat × List Comment)} {g : Nat → List Comment} {p : Nat × Issue}
    {e : Event} (he : e ∈ itemBody os prev pc g p) : e.kind ≠ EventKind.closed := by
  unfold itemBody at he
  rcases List.mem_append.mp he with he | he
  · cases hts : titleStateEvent os prev p.1 p.2 with
    | none => rw [hts] at he; simp [Option.toList] at he
    | some ev =>
      rw [hts] at he
      simp only [Option.toList, List.mem_singleton] at he
      rw [he]
      exact titleStateEvent_kind_not_closed hts
  · by_cases hc : (g p.2.key).length > ((dictGet pc p.1).getD []).length
    · rw [if_pos hc] at he
      rcases List.mem_singleton.mp he with rfl
      simp [commentAddedEvent]
    · rw [if_neg hc] at he
      simp at he

theorem mem_closedBody {cur : List (Nat × Issue)} {p : Nat × Issue} {e : Event}
    (he : e ∈ closedBody cur p) : e = closedEvent p.2 ∧ dictGet cur p.1 = none := by
  unfold closedBody at he
  by_cases hc : (dictGet cur p.1).isSome
  · rw [if_pos hc] at he; simp at he
  · rw [if_neg hc] at he
    rcases List.mem_singleton.mp he with rfl
    exact ⟨rfl, Option.not_isSome_iff_eq_none.mp hc⟩

theorem checkCycle_bootstrap (os : String) (nt : Option String)
    (tr : String → Event → TransportResult) (fc : Nat → Except Unit (List Comment))
    (st : MonitorState) (fetched : List Issue) (h : st.previous_issues = []) :
    checkCycle os nt tr fc st fetched =
      ⟨⟨buildMap fetched, (seedLoop fc fetched st.previous_comments).1⟩, [], [],
        (seedLoop fc fetched st.previous_comments).2⟩ := by
  unfold checkCycle
  rw [h]
  rfl

theorem checkCycle_okFC_eq (os : String) (nt : Option String)
    (tr : String → Event → TransportResult) (g : Nat → List Comment)
    (st : MonitorState) (fetched : List Issue) (hne : st.previous_issues ≠ []) :
    checkCycle os nt tr (okFC g) st fetched =
      ⟨⟨buildMap fetched,
        (closedLoop nt tr (buildMap fetched) st.previous_issues
          (presentLoop os nt tr (okFC g) st.previous_issues (buildMap fetched)
            ⟨[], [], st.previous_comments⟩).1).pc⟩,
       (closedLoop nt tr (buildMap fetched) st.previous_issues
          (presentLoop os nt tr (okFC g) st.previous_issues (buildMap fetched)
            ⟨[], [], st.previous_comments⟩).1).events,
       (closedLoop nt tr (buildMap fetched) st.previous_issues
          (presentLoop os nt tr (okFC g) st.previous_issues (buildMap fetched)
            ⟨[], [], st.previous_comments⟩).1).sends, false⟩ := by
  unfold checkCycle
  rw [isEmpty_false_of_ne hne]
  simp [presentLoop_no_error]

theorem checkCycle_okFC_events (os : String) (nt : Option String)
    (tr : String → Event → TransportResult) (g : Nat → List Comment)
    (st : MonitorState) (fetched : List Issue) (hne : st.previous_issues ≠ []) :
    (checkCycle os nt tr (okFC g) st fetched).events =
      concatMap (itemBody os st.previous_issues st.previous_comments g)
        (buildMap fetched) ++
      concatMap (closedBody (buildMap fetched)) st.previous_issues := by
  rw [checkCycle_okFC_eq os nt tr g st fetched hne]
  show (closedLoop nt tr (buildMap fetched) st.previous_issues _).events = _
  rw [closedLoop_events, presentLoop_events_flat os nt tr g st.previous_issues
    (buildMap fetched) ⟨[], [], st.previous_comments⟩
    (buildMap_keyConsistent fetched) (buildMap_keysNodup fetched)]
  rfl

theorem checkCycle_okFC_prev (os : String) (nt : Option String)
    (tr : String → Event → TransportResult) (g : Nat → List Comment)
    (st : MonitorState) (fetched : List Issue) (hne : st.previous_issues ≠ []) :
    (checkCycle os nt tr (okFC g) st fetched).state.previous_issues =
      buildMap fetched := by
  rw [checkCycle_okFC_eq os nt tr g st fetched hne]

theorem checkCycle_okFC_errored (os : String) (nt : Option String)
    (tr : String → Event → TransportResult) (g : Nat → List Comment)
    (st : MonitorState) (fetched : List Issue) (hne : st.previous_issues ≠ []) :
    (checkCycle os nt tr (okFC g) st fetched).errored = false := by
  rw [checkCycle_okFC_eq os nt tr g st fetched hne]

theorem checkCycle_okFC_pc (os : String) (nt : Option String)
    (tr : String → Event → TransportResult) (g : Nat → List Comment)
    (st : MonitorState) (fetched : List Issue) (hne : st.previous_issues ≠ []) :
    (checkCycle os nt tr (okFC g) st fetched).state.previous_comments =
      (presentLoop os nt tr (okFC g) st.previous_issues (buildMap fetched)
        ⟨[], [], st.previous_comments⟩).1.pc := by
  rw [checkCycle_okFC_eq os nt tr g st fetched hne]
  show (closedLoop nt tr (buildMap fetched) st.previous_issues _).pc = _
  rw [closedLoop_pc]

theorem checkCycle_pc_at_key (os : String) (nt : Option String)
    (tr : String → Event → TransportResult) (g : Nat → List Comment)
    (st : MonitorState) (fetched : List Issue) (k : Nat) (v : Issue)
    (hne : st.previous_issues ≠ []) (hget : dictGet (buildMap fetched) k = some v) :
    dictGet (checkCycle os nt tr (okFC g) st fetched).state.previous_comments k =
      if (g k).length > ((dictGet st.previous_comments k).getD []).length then
        some (g k)
      else dictGet st.previous_comments k := by
  rw [checkCycle_okFC_pc os nt tr g st fetched hne]
  exact presentLoop_pc_at_key os nt tr g st.previous_issues k (buildMap fetched)
    ⟨[], [], st.previous_comments⟩ v (buildMap_keyConsistent fetched)
    (buildMap_keysNodup fetched) hget

theorem checkCycle_pc_absent (os : String) (nt : Option String)
    (tr : String → Event → TransportResult) (fc : Nat → Except Unit (List Comment))
    (st : MonitorState) (fetched : List Issue) (k : Nat)
    (hk : ∀ i ∈ fetched, i.key ≠ k) :
    dictGet (checkCycle os nt tr fc st fetched).state.previous_comments k =
      dictGet st.previous_comments k := by
  by_cases h : st.previous_issues = []
  · rw [checkCycle_bootstrap os nt tr fc st fetched h]
    exact seedLoop_pc_absent fc k fetched st.previous_comments hk
  · unfold checkCycle
    rw [isEmpty_false_of_ne h]
    simp only [Bool.false_eq_true, if_false]
    by_cases hr : (presentLoop os nt tr fc st.previous_issues (buildMap fetched)
      ⟨[], [], st.previous_comments⟩).2 = true
    · rw [if_pos hr]
      exact presentLoop_pc_absent os nt tr fc st.previous_issues k (buildMap fetched)
        ⟨[], [], st.previous_comments⟩ (buildMap_keys_pred hk)
    · rw [if_neg hr]
      show dictGet (closedLoop nt tr (buildMap fetched) st.previous_issues _).pc k = _
      rw [closedLoop_pc]
      exact presentLoop_pc_absent os nt tr fc st.previous_issues k (buildMap fetched)
        ⟨[], [], st.previous_comments⟩ (buildMap_keys_pred hk)

theorem checkCycle_error_prev (os : String) (nt : Option String)
    (tr : String → Event → TransportResult) (fc : Nat → Except Unit (List Comment))
    (st : MonitorState) (fetched : List Issue) (hne : st.previous_issues ≠ [])
    (herr : (checkCycle os nt tr fc st fetched).errored = true) :
    (checkCycle os nt tr fc st fetched).state.previous_issues =
      st.previous_issues := by
  unfold checkCycle at herr ⊢
  rw [isEmpty_false_of_ne hne] at herr ⊢
  simp only [Bool.false_eq_true, if_false] at herr ⊢
  by_cases hr : (presentLoop os nt tr fc st.previous_issues (buildMap fetched)
    ⟨[], [], st.previous_comments⟩).2 = true
  · rw [if_pos hr]
  · rw [if_neg hr] at herr
    exact absurd herr (by simp)

theorem checkCycle_indep (os : String) (nt nt' : Option String)
    (tr tr' : String → Event → TransportResult)
    (fc : Nat → Except Unit (List Comment)) (st : MonitorState)
    (fetched : List Issue) :
    (checkCycle os nt tr fc st fetched).events =
      (checkCycle os nt' tr' fc st fetched).events ∧
    (checkCycle os nt tr fc st fetched).state =
      (checkCycle os nt' tr' fc st fetched).state ∧
    (checkCycle os nt tr fc st fetched).errored =
      (checkCycle os nt' tr' fc st fetched).errored := by
  by_cases h : st.previous_issues = []
  · rw [checkCycle_bootstrap os nt tr fc st fetched h,
      checkCycle_bootstrap os nt' tr' fc st fetched h]
    exact ⟨rfl, rfl, rfl⟩
  · have hind := presentLoop_indep os nt nt' tr tr' fc st.previous_issues
      (buildMap fetched) ⟨[], [], st.previous_comments⟩ ⟨[], [], st.previous_comments⟩
      rfl rfl
    unfold checkCycle
    rw [isEmpty_false_of_ne h]
    simp only [Bool.false_eq_true, if_false]
    rw [← hind.2.2]
    by_cases hr : (presentLoop os nt tr fc st.previous_issues (buildMap fetched)
      ⟨[], [], st.previous_comments⟩).2 = true
    · rw [if_pos hr, if_pos hr]
      exact ⟨hind.1, by rw [hind.2.1], rfl⟩
    · rw [if_neg hr, if_neg hr]
      refine ⟨?_, ?_, rfl⟩
      · rw [closedLoop_events, closedLoop_events, hind.1]
      · rw [closedLoop_pc, closedLoop_pc, hind.2.1]

theorem presentLoop_statusOk (os : String) (nt : Option String)
    (tr : String → Event → TransportResult) (fc : Nat → Except Unit (List Comment))
    (prev : List (Nat × Issue)) :
    ∀ (items : List (Nat × Issue)) (acc : CycleAcc),
      (∀ e ∈ acc.events, statusTagOk e) →
      ∀ e ∈ (presentLoop os nt tr fc prev items acc).1.events, statusTagOk e := by
  intro items
  induction items with
  | nil => intro acc h; exact h
  | cons p rest ih =>
    intro acc h
    obtain ⟨key, i⟩ := p
    have hacc1 : ∀ e ∈ (stepTS os nt tr prev key i acc).events, statusTagOk e := by
      rw [stepTS_events]
      intro e he
      rcases List.mem_append.mp he with he | he
      · exact h e he
      · cases hts : titleStateEvent os prev key i with
        | none => rw [hts] at he; simp [Option.toList] at he
        | some ev =>
          rw [hts] at he
          simp only [Option.toList, List.mem_singleton] at he
          rw [he]
          exact titleStateEvent_statusOk hts
    simp only [presentLoop]
    cases hfc : fc i.key with
    | error e' => exact hacc1
    | ok cur =>
      refine ih _ ?_
      rw [stepComment_events]
      intro e he
      rcases List.mem_append.mp he with he | he
      · exact hacc1 e he
      · by_cases hcond : cur.length >
          ((dictGet (stepTS os nt tr prev key i acc).pc key).getD []).length
        · rw [if_pos hcond] at he
          rcases List.mem_singleton.mp he with rfl
          exact statusTagOk_commentAddedEvent _ _
        · rw [if_neg hcond] at he
          simp at he

theorem checkCycle_statusOk (os : String) (nt : Option String)
    (tr : String → Event → TransportResult) (fc : Nat → Except Unit (List Comment))
    (st : MonitorState) (fetched : List Issue) :
    ∀ e ∈ (checkCycle os nt tr fc st fetched).events, statusTagOk e := by
  by_cases h : st.previous_issues = []
  · rw [checkCycle_bootstrap os nt tr fc st fetched h]
    intro e he
    simp at he
  · have hpl : ∀ e ∈ (presentLoop os nt tr fc st.previous_issues (buildMap fetched)
        ⟨[], [], st.previous_comments⟩).1.events, statusTagOk e := by
      refine presentLoop_statusOk os nt tr fc st.previous_issues _ _ ?_
      intro e he
      simp at he
    unfold checkCycle
    rw [isEmpty_false_of_ne h]
    simp only [Bool.false_eq_true, if_false]
    by_cases hr : (presentLoop os nt tr fc st.previous_issues (buildMap fetched)
      ⟨[], [], st.previous_comments⟩).2 = true
    · rw [if_pos hr]
      exact hpl
    · rw [if_neg hr]
      show ∀ e ∈ (closedLoop nt tr (buildMap fetched) st.previous_issues _).events, _
      rw [closedLoop_events]
      intro e he
      rcases List.mem_append.mp he with he | he
      · exact hpl e he
      · rcases mem_concatMap.mp he with ⟨p, _, hep⟩
        rcases mem_closedBody hep with ⟨rfl, _⟩
        exact statusTagOk_closedEvent _

theorem titleStateEvent_of_none {os : String} {prev : List (Nat × Issue)}
    {key : Nat} {i : Issue} (hprev : dictGet prev key = none) :
    titleStateEvent os prev key i = some (createdEvent i) := by
  unfold titleStateEvent
  rw [hprev]

theorem titleStateEvent_of_some {os : String} {prev : List (Nat × Issue)}
    {key : Nat} {i : Issue} {p : Issue} (hprev : dictGet prev key = some p) :
    titleStateEvent os prev key i =
      (if i.state ≠ p.state ∨ i.title ≠ p.title then
        if p.state = "closed" ∧ i.state = os then some (reopenedEvent i)
        else some (changedEvent i)
      else none) := by
  unfold titleStateEvent
  rw [hprev]

theorem filter_id_itemBody_ne {os : String} {prev : List (Nat × Issue)}
    {pc : List (Nat × List Comment)} {g : Nat → List Comment} {p : Nat × Issue}
    {k : Nat} (hcons : p.2.key = p.1) (hne : p.1 ≠ k) :
    (itemBody os prev pc g p).filter (fun e => e.issue_id == k) = [] := by
  rw [List.filter_eq_nil_iff]
  intro e he
  rw [mem_itemBody_issue_id he, hcons]
  simp [hne]

theorem filter_id_itemBody_self {os : String} {prev : List (Nat × Issue)}
    {pc : List (Nat × List Comment)} {g : Nat → List Comment} {k : Nat} {v : Issue}
    (hv : v.key = k) :
    (itemBody os prev pc g (k, v)).filter (fun e => e.issue_id == k) =
      itemBody os prev pc g (k, v) := by
  rw [List.filter_eq_self]
  intro e he
  have h := mem_itemBody_issue_id he
  simp only at h
  rw [h, hv]
  simp

theorem filter_id_closedBody_ne {cur : List (Nat × Issue)} {p : Nat × Issue} {k : Nat}
    (hcons : p.2.key = p.1) (hne : p.1 ≠ k) :
    (closedBody cur p).filter (fun e => e.issue_id == k) = [] := by
  rw [List.filter_eq_nil_iff]
  intro e he
  rcases mem_closedBody he with ⟨rfl, _⟩
  show ¬((closedEvent p.2).issue_id == k) = true
  unfold closedEvent
  simp only
  rw [hcons]
  simp [hne]

theorem filter_id_closedBody_present {cur : List (Nat × Issue)} {p : Nat × Issue}
    {k : Nat} {v : Issue} (hk : p.1 = k) (hget : dictGet cur k = some v) :
    (closedBody cur p).filter (fun e => e.issue_id == k) = [] := by
  unfold closedBody
  rw [hk, hget]
  rfl

theorem checkCycle_eventsFor_present (os : String) (nt : Option String)
    (tr : String → Event → TransportResult) (g : Nat → List Comment)
    (st : MonitorState) (fetched : List Issue) (k : Nat) (v : Issue)
    (hpcons : keyConsistent st.previous_issues) (hne : st.previous_issues ≠ [])
    (hget : dictGet (buildMap fetched) k = some v) :
    eventsFor k (checkCycle os nt tr (okFC g) st fetched).events =
      itemBody os st.previous_issues st.previous_comments g (k, v) := by
  unfold eventsFor
  rw [checkCycle_okFC_events os nt tr g st fetched hne, List.filter_append,
    filter_concatMap, filter_concatMap]
  have h1 : concatMap (fun p =>
      (itemBody os st.previous_issues st.previous_comments g p).filter
        (fun e => e.issue_id == k)) (buildMap fetched) =
      (itemBody os st.previous_issues st.previous_comments g (k, v)).filter
        (fun e => e.issue_id == k) := by
    refine concatMap_single (buildMap_keysNodup fetched) hget ?_
    intro p hp hpk
    exact filter_id_itemBody_ne (buildMap_keyConsistent fetched p hp) hpk
  have h2 : concatMap (fun p =>
      (closedBody (buildMap fetched) p).filter (fun e => e.issue_id == k))
      st.previous_issues = [] := by
    refine concatMap_nil_of ?_
    intro p hp
    by_cases hpk : p.1 = k
    · exact filter_id_closedBody_present hpk hget
    · exact filter_id_closedBody_ne (hpcons p hp) hpk
  rw [h1, h2,
    filter_id_itemBody_self (dictGet_key_eq (buildMap_keyConsistent fetched) hget),
    List.append_nil]

theorem checkCycle_eventsFor_absent (os : String) (nt : Option String)
    (tr : String → Event → TransportResult) (g : Nat → List Comment)
    (st : MonitorState) (fetched : List Issue) (k : Nat) (p : Issue)
    (hpcons : keyConsistent st.previous_issues) (hnd : keysNodup st.previous_issues)
    (hprev : dictGet st.previous_issues k = some p)
    (habs : dictGet (buildMap fetched) k = none) :
    eventsFor k (checkCycle os nt tr (okFC g) st fetched).events = [closedEvent p] := by
  have hne := ne_nil_of_dictGet_some hprev
  unfold eventsFor
  rw [checkCycle_okFC_events os nt tr g st fetched hne, List.filter_append,
    filter_concatMap, filter_concatMap]
  have h1 : concatMap (fun q =>
      (itemBody os st.previous_issues st.previous_comments g q).filter
        (fun e => e.issue_id == k)) (buildMap fetched) = [] := by
    refine concatMap_nil_of ?_
    intro q hq
    exact filter_id_itemBody_ne (buildMap_keyConsistent fetched q hq)
      (dictGet_eq_none_forall habs q hq)
  have h2 : concatMap (fun q =>
      (closedBody (buildMap fetched) q).filter (fun e => e.issue_id == k))
      st.previous_issues =
      (closedBody (buildMap fetched) (k, p)).filter (fun e => e.issue_id == k) := by
    refine concatMap_single hnd hprev ?_
    intro q hq hqk
    exact filter_id_closedBody_ne (hpcons q hq) hqk
  rw [h1, h2, List.nil_append]
  show ((if (dictGet (buildMap fetched) k).isSome then [] else [closedEvent p]).filter
    (fun e => e.issue_id == k)) = [closedEvent p]
  rw [habs]
  have hpk : p.key = k := dictGet_key_eq hpcons hprev
  simp [closedEvent, hpk]

theorem tsList_filter_not_mk {os : String} {prev : List (Nat × Issue)} {key : Nat}
    {i : Issue} :
    ((titleStateEvent os prev key i).toList).filter
      (fun e => e.kind == EventKind.commentAdded) = [] := by
  cases hts : titleStateEvent os prev key i with
  | none => rfl
  | some ev =>
    have h := titleStateEvent_kind_not_commentAdded hts
    simp [Option.toList, h]

theorem checkCycle_reopen_eventsFor (os : String) (nt : Option String)
    (tr : String → Event → TransportResult) (g : Nat → List Comment)
    (st : MonitorState) (fetched : List Issue) (k : Nat) (p v : Issue)
    (hos : os ≠ "closed") (hpcons : keyConsistent st.previous_issues)
    (hprev : dictGet st.previous_issues k = some p) (hp : p.state = "closed")
    (hget : dictGet (buildMap fetched) k = some v) (hv : v.state = os) :
    eventsFor k (checkCycle os nt tr (okFC g) st fetched).events =
      [reopenedEvent v] ++
        (if (g v.key).length > ((dictGet st.previous_comments k).getD []).length then
          [commentAddedEvent v (g v.key)] else []) := by
  rw [checkCycle_eventsFor_present os nt tr g st fetched k v hpcons
    (ne_nil_of_dictGet_some hprev) hget]
  show (titleStateEvent os st.previous_issues k v).toList ++ _ = _
  rw [titleStateEvent_of_some hprev,
    if_pos (Or.inl (show v.state ≠ p.state by rw [hv, hp]; exact hos)),
    if_pos ⟨hp, hv⟩]
  rfl

theorem reopen_filter_aux (v : Issue) (part : List Event)
    (hpart : part = [] ∨ ∃ cur, part = [commentAddedEvent v cur]) :
    (([reopenedEvent v] ++ part).filter
      (fun e => e.kind == EventKind.reopened)).length = 1 ∧
    ([reopenedEvent v] ++ part).filter
      (fun e => e.kind == EventKind.titleOrStateChanged) = [] := by
  rcases hpart with rfl | ⟨cur, rfl⟩ <;> exact ⟨rfl, rfl⟩

/-- C1 (corrected): on every poll cycle that starts with an empty
previous-issues table — the first cycle of the process in particular — zero
events are emitted, the committed issues table is exactly the map built from
the fetched issue list, and the per-issue comment lists are seeded from the
fetched set.  The original claim's final clause ("this no-event bootstrap
path is never taken again once the table has been non-empty, even if the
table becomes empty after all issues disappear") is false on the code: the
branch tests only emptiness of `previous_issues`, so the bootstrap fires
again whenever the table re-empties — see the counterexample. -/
theorem C1_bootstrap_amended (os : String) (nt : Option String)
    (tr : String → Event → TransportResult) (g : Nat → List Comment)
    (st : MonitorState) (fetched : List Issue) (hboot : st.previous_issues = []) :
    (checkCycle os nt tr (okFC g) st fetched).events = [] ∧
    (checkCycle os nt tr (okFC g) st fetched).state.previous_issues =
      buildMap fetched ∧
    (checkCycle os nt tr (okFC g) st fetched).state.previous_comments =
      seedFrom g st.previous_comments fetched ∧
    (checkCycle os nt tr (okFC g) st fetched).errored = false := by
  rw [checkCycle_bootstrap os nt tr (okFC g) st fetched hboot, seedLoop_okFC]
  exact ⟨rfl, rfl, rfl, rfl⟩

/-- C1 counterexample: after a first cycle with one issue (the table becomes
non-empty) and a second cycle in which every issue disappears (the table
re-empties), the third cycle takes the no-event bootstrap path again: a
brand-new issue yields zero events, while the same fetch diffed against the
first cycle's non-empty table yields events. -/
theorem C1_counterexample :
    st1c.previous_issues ≠ [] ∧
    st2c.previous_issues = [] ∧
    (checkGitlab none trOk (okFC gNone) st2c [issueB]).events = [] ∧
    (checkGitlab none trOk (okFC gNone) st1c [issueB]).events ≠ [] :=
  ⟨by decide, by decide, by decide, by decide⟩

/-- C1 witness: the amended theorem evaluated at the process-start state. -/
theorem C1_witness :
    (checkCycle "opened" none trOk (okFC gNone) st0 [issueA]).events = [] ∧
    (checkCycle "opened" none trOk (okFC gNone) st0 [issueA]).state.previous_issues =
      buildMap [issueA] ∧
    (checkCycle "opened" none trOk (okFC gNone) st0
        [issueA]).state.previous_comments =
      seedFrom gNone st0.previous_comments [issueA] ∧
    (checkCycle "opened" none trOk (okFC gNone) st0 [issueA]).errored = false :=
  C1_bootstrap_amended "opened" none trOk gNone st0 [issueA] rfl

/-- C2 (corrected): an exception raised while fetching comments aborts the
cycle: on a non-bootstrap cycle the previous-issues table is left exactly as
it was (the commit is skipped) and the cycle ends in the logged `except`
clause instead of crashing.  The original claim additionally asserted that
the recorded per-issue comment counts are left untouched; that part is false
on the code — comment records already advanced earlier in the same cycle are
retained (the dict is mutated in place) — see the counterexample. -/
theorem C2_abort_amended (os : String) (nt : Option String)
    (tr : String → Event → TransportResult) (fc : Nat → Except Unit (List Comment))
    (st : MonitorState) (fetched : List Issue) (hne : st.previous_issues ≠ [])
    (herr : (checkCycle os nt tr fc st fetched).errored = true) :
    (checkCycle os nt tr fc st fetched).state.previous_issues =
      st.previous_issues :=
  checkCycle_error_prev os nt tr fc st fetched hne herr

/-- C2 counterexample: with issues 1 and 2 known, a cycle whose comment fetch
finds a new comment on issue 1 and then raises on issue 2 ends in the error
path with the recorded comment table changed — not "exactly as it was". -/
theorem C2_counterexample :
    (checkGitlab none trOk fcC2 stC2 [issueA, issueB]).errored = true ∧
    (checkGitlab none trOk fcC2 stC2 [issueA, issueB]).state.previous_comments ≠
      stC2.previous_comments :=
  ⟨by decide, by decide⟩

/-- C2 witness: the amended theorem at the failing fetch fixture. -/
theorem C2_witness :
    (checkCycle "opened" none trOk fcC2 stC2 [issueA, issueB]).state.previous_issues =
      stC2.previous_issues :=
  C2_abort_amended "opened" none trOk fcC2 stC2 [issueA, issueB] (by decide)
    (by decide)

theorem changedEvent_status_closed {v : Issue} (hv : v.state = "closed") :
    (changedEvent v).status = "close" := by
  simp [changedEvent, hv]

theorem changedEvent_status_open {v : Issue} (hv : v.state ≠ "closed") :
    (changedEvent v).status = "수정" := by
  simp [changedEvent, hv]

theorem checkCycle_changed_eventsFor (os : String) (nt : Option String)
    (tr : String → Event → TransportResult) (g : Nat → List Comment)
    (st : MonitorState) (fetched : List Issue) (k : Nat) (p v : Issue)
    (hpcons : keyConsistent st.previous_issues)
    (hprev : dictGet st.previous_issues k = some p)
    (hget : dictGet (buildMap fetched) k = some v)
    (hch : v.state ≠ p.state ∨ v.title ≠ p.title)
    (hnr : ¬(p.state = "closed" ∧ v.state = os)) :
    eventsFor k (checkCycle os nt tr (okFC g) st fetched).events =
      [changedEvent v] ++
        (if (g v.key).length > ((dictGet st.previous_comments k).getD []).length then
          [commentAddedEvent v (g v.key)] else []) := by
  rw [checkCycle_eventsFor_present os nt tr g st fetched k v hpcons
    (ne_nil_of_dictGet_some hprev) hget]
  show (titleStateEvent os st.previous_issues k v).toList ++ _ = _
  rw [titleStateEvent_of_some hprev, if_pos hch, if_neg hnr]
  rfl

theorem changed_filter_aux (v : Issue) (part : List Event)
    (hpart : part = [] ∨ ∃ cur, part = [commentAddedEvent v cur]) :
    ([changedEvent v] ++ part).filter
      (fun e => e.kind == EventKind.titleOrStateChanged) = [changedEvent v] := by
  rcases hpart with rfl | ⟨cur, rfl⟩ <;> rfl

/-- C3 (corrected): every emitted event's status tag follows the table the
code actually implements — Created→"등록", Reopened→"reopen", Closed→"close",
CommentAdded→"comment 등록", and for TitleOrStateChanged the tag correlates
with the freshly fetched state: exactly one such event is emitted for a
changed still-present issue (outside the reopen case), and its tag is
"close" when the fetched state is closed and "수정" when it is not — and the
emitted event sequence, hence each payload's tag, is identical whichever
notification channel is configured.  The original claim's tag values
"registered"/"updated"/"closed"/"reopened"/"comment_registered" are not the
strings the code puts in the payload — see the counterexample. -/
theorem C3_status_tags_amended (os : String) (nt nt' : Option String)
    (tr tr' : String → Event → TransportResult)
    (fc : Nat → Except Unit (List Comment)) (st : MonitorState)
    (fetched : List Issue) :
    (∀ e ∈ (checkCycle os nt tr fc st fetched).events, statusTagOk e) ∧
    ((checkCycle os nt tr fc st fetched).events =
      (checkCycle os nt' tr' fc st fetched).events) ∧
    (∀ (g : Nat → List Comment) (k : Nat) (p v : Issue),
      keyConsistent st.previous_issues →
      dictGet st.previous_issues k = some p →
      dictGet (buildMap fetched) k = some v →
      (v.state ≠ p.state ∨ v.title ≠ p.title) →
      ¬(p.state = "closed" ∧ v.state = os) →
      eventsOfKindFor EventKind.titleOrStateChanged k
        (checkCycle os nt tr (okFC g) st fetched).events = [changedEvent v] ∧
      ∀ e ∈ eventsOfKindFor EventKind.titleOrStateChanged k
        (checkCycle os nt tr (okFC g) st fetched).events,
        (v.state = "closed" → e.status = "close") ∧
        (v.state ≠ "closed" → e.status = "수정")) := by
  refine ⟨checkCycle_statusOk os nt tr fc st fetched,
    (checkCycle_indep os nt nt' tr tr' fc st fetched).1, ?_⟩
  intro g k p v hpcons hprev hget hch hnr
  have hlist : eventsOfKindFor EventKind.titleOrStateChanged k
      (checkCycle os nt tr (okFC g) st fetched).events = [changedEvent v] := by
    unfold eventsOfKindFor
    rw [checkCycle_changed_eventsFor os nt tr g st fetched k p v hpcons hprev hget
      hch hnr]
    refine changed_filter_aux v _ ?_
    by_cases hc : (g v.key).length >
        ((dictGet st.previous_comments k).getD []).length
    · exact Or.inr ⟨g v.key, if_pos hc⟩
    · exact Or.inl (if_neg hc)
  refine ⟨hlist, ?_⟩
  intro e he
  rw [hlist] at he
  rcases List.mem_singleton.mp he with rfl
  exact ⟨fun hv => changedEvent_status_closed hv,
    fun hv => changedEvent_status_open hv⟩

/-- C3 counterexample: a cycle that detects one new issue emits exactly one
Created event whose status tag is "등록", not "registered". -/
theorem C3_counterexample :
    (checkGitlab none trOk (okFC gNone) st1c [issueA, issueB]).events =
      [createdEvent issueB] ∧
    (createdEvent issueB).kind = EventKind.created ∧
    (createdEvent issueB).status ≠ "registered" :=
  ⟨by decide, rfl, by decide⟩

/-- C3 witness: the amended theorem at a concrete Created event and at a
concrete open→closed change, whose single TitleOrStateChanged event carries
the tag "close". -/
theorem C3_witness :
    statusTagOk (createdEvent issueB) ∧
    eventsOfKindFor EventKind.titleOrStateChanged 1
      (checkCycle "opened" none trOk (okFC gNone) stP [issueAClosed]).events =
      [changedEvent issueAClosed] ∧
    (changedEvent issueAClosed).status = "close" :=
  ⟨(C3_status_tags_amended "opened" none none trOk trOk (okFC gNone) st1c
      [issueA, issueB]).1 (createdEvent issueB) (by decide),
   ((C3_status_tags_amended "opened" none none trOk trOk (okFC gNone) stP
      [issueAClosed]).2.2 gNone 1 issueA issueAClosed
      (by unfold keyConsistent; decide) (by decide) (by decide)
      (Or.inl (by decide)) (by decide)).1,
   (((C3_status_tags_amended "opened" none none trOk trOk (okFC gNone) stP
      [issueAClosed]).2.2 gNone 1 issueA issueAClosed
      (by unfold keyConsistent; decide) (by decide) (by decide)
      (Or.inl (by decide)) (by decide)).2 (changedEvent issueAClosed)
      (by decide)).1 rfl⟩

/-- C9 (confirmed): the chat-channel line truncation — text of strictly more
than 3 lines becomes the first 3 lines joined by newlines with "..."
appended; text of at most 3 lines is returned unchanged with no ellipsis;
empty text gives the empty string. -/
theorem C9_truncate_by_lines :
    (∀ text : String, truncate_by_lines text 3 =
      if 3 < (splitlines text).length then
        String.intercalate "\n" ((splitlines text).take 3) ++ "..."
      else text) ∧
    truncate_by_lines "" 3 = "" := by
  constructor
  · intro text
    by_cases h : text = ""
    · subst h
      rfl
    · unfold truncate_by_lines
      rw [if_neg h]
  · rfl

/-- C4 (confirmed): an issue key present in both the previous table and the
new fetch, recorded closed and fetched in the platform's open state
(`'opened'` on GitLab, `'open'` on GitHub), yields exactly one Reopened event
for that key and no TitleOrStateChanged event — the reopen branch takes
precedence — in both the GitLab-backed and the GitHub-backed checker. -/
theorem C4_reopen_precedence :
    (∀ (nt : Option String) (tr : String → Event → TransportResult)
      (g : Nat → List Comment) (st : MonitorState) (fetched : List Issue)
      (k : Nat) (p v : Issue), keyConsistent st.previous_issues →
      dictGet st.previous_issues k = some p → p.state = "closed" →
      dictGet (buildMap fetched) k = some v → v.state = "opened" →
      (eventsOfKindFor EventKind.reopened k
        (checkGitlab nt tr (okFC g) st fetched).events).length = 1 ∧
      eventsOfKindFor EventKind.titleOrStateChanged k
        (checkGitlab nt tr (okFC g) st fetched).events = []) ∧
    (∀ (nt : Option String) (tr : String → Event → TransportResult)
      (g : Nat → List Comment) (st : MonitorState) (fetched : List Issue)
      (k : Nat) (p v : Issue), keyConsistent st.previous_issues →
      dictGet st.previous_issues k = some p → p.state = "closed" →
      dictGet (buildMap fetched) k = some v → v.state = "open" →
      (eventsOfKindFor EventKind.reopened k
        (checkGithub nt tr (okFC g) st fetched).events).length = 1 ∧
      eventsOfKindFor EventKind.titleOrStateChanged k
        (checkGithub nt tr (okFC g) st fetched).events = []) := by
  constructor
  · intro nt tr g st fetched k p v hpcons hprev hp hget hv
    unfold eventsOfKindFor eventsFor
    show ((eventsFor k (checkCycle "opened" nt tr (okFC g) st fetched).events).filter
        (fun e => e.kind == EventKind.reopened)).length = 1 ∧
      (eventsFor k (checkCycle "opened" nt tr (okFC g) st fetched).events).filter
        (fun e => e.kind == EventKind.titleOrStateChanged) = []
    rw [checkCycle_reopen_eventsFor "opened" nt tr g st fetched k p v (by decide)
      hpcons hprev hp hget hv]
    refine reopen_filter_aux v _ ?_
    by_cases hc : (g v.key).length >
        ((dictGet st.previous_comments k).getD []).length
    · exact Or.inr ⟨g v.key, if_pos hc⟩
    · exact Or.inl (if_neg hc)
  · intro nt tr g st fetched k p v hpcons hprev hp hget hv
    unfold eventsOfKindFor eventsFor
    show ((eventsFor k (checkCycle "open" nt tr (okFC g) st fetched).events).filter
        (fun e => e.kind == EventKind.reopened)).length = 1 ∧
      (eventsFor k (checkCycle "open" nt tr (okFC g) st fetched).events).filter
        (fun e => e.kind == EventKind.titleOrStateChanged) = []
    rw [checkCycle_reopen_eventsFor "open" nt tr g st fetched k p v (by decide)
      hpcons hprev hp hget hv]
    refine reopen_filter_aux v _ ?_
    by_cases hc : (g v.key).length >
        ((dictGet st.previous_comments k).getD []).length
    · exact Or.inr ⟨g v.key, if_pos hc⟩
    · exact Or.inl (if_neg hc)

/-- C4 witness: closed→opened on GitLab and closed→open on GitHub each give
exactly one Reopened event and no TitleOrStateChanged event. -/
theorem C4_witness :
    (eventsOfKindFor EventKind.reopened 1
      (checkGitlab none trOk (okFC gNone) stRe [issueA]).events).length = 1 ∧
    eventsOfKindFor EventKind.titleOrStateChanged 1
      (checkGitlab none trOk (okFC gNone) stRe [issueA]).events = [] ∧
    (eventsOfKindFor EventKind.reopened 2
      (checkGithub none trOk (okFC gNone) stReGh [issueBOpenGh]).events).length = 1 ∧
    eventsOfKindFor EventKind.titleOrStateChanged 2
      (checkGithub none trOk (okFC gNone) stReGh [issueBOpenGh]).events = [] := by
  have h1 := C4_reopen_precedence.1 none trOk gNone stRe [issueA] 1 issueAClosed
    issueA (by unfold keyConsistent; decide) (by decide) rfl (by decide) rfl
  have h2 := C4_reopen_precedence.2 none trOk gNone stReGh [issueBOpenGh] 2
    issueBClosedGh issueBOpenGh (by unfold keyConsistent; decide) (by decide) rfl
    (by decide) rfl
  exact ⟨h1.1, h1.2, h2.1, h2.2⟩

/-- C5 (confirmed): for an issue present in the new fetch, a CommentAdded
event is emitted at most once per cycle — exactly once when the freshly
fetched comment count strictly exceeds the recorded count (`[]`, count 0, for
never-seen keys) and never otherwise; the event carries the most recent
comment; and the recorded list is advanced to the fetched list in that same
cycle, for every notification channel and transport outcome (delivery never
affects the result). -/
theorem C5_comment_added_once (os : String) (nt : Option String)
    (tr : String → Event → TransportResult) (g : Nat → List Comment)
    (st : MonitorState) (fetched : List Issue) (k : Nat) (v : Issue)
    (hpcons : keyConsistent st.previous_issues) (hne : st.previous_issues ≠ [])
    (hget : dictGet (buildMap fetched) k = some v) :
    (eventsOfKindFor EventKind.commentAdded k
      (checkCycle os nt tr (okFC g) st fetched).events =
      if (g k).length > ((dictGet st.previous_comments k).getD []).length then
        [commentAddedEvent v (g k)] else []) ∧
    (dictGet (checkCycle os nt tr (okFC g) st fetched).state.previous_comments k =
      if (g k).length > ((dictGet st.previous_comments k).getD []).length then
        some (g k) else dictGet st.previous_comments k) ∧
    (commentAddedEvent v (g k)).comment =
      some (((g k).getLast?.getD ⟨""⟩).body) := by
  have hvk : v.key = k := dictGet_key_eq (buildMap_keyConsistent fetched) hget
  refine ⟨?_, checkCycle_pc_at_key os nt tr g st fetched k v hne hget, rfl⟩
  unfold eventsOfKindFor
  rw [checkCycle_eventsFor_present os nt tr g st fetched k v hpcons hne hget]
  show ((titleStateEvent os st.previous_issues k v).toList ++
    (if (g v.key).length > ((dictGet st.previous_comments k).getD []).length then
      [commentAddedEvent v (g v.key)] else [])).filter
      (fun e => e.kind == EventKind.commentAdded) = _
  rw [List.filter_append, tsList_filter_not_mk, List.nil_append, hvk]
  by_cases hc : (g k).length > ((dictGet st.previous_comments k).getD []).length
  · rw [if_pos hc]
    rfl
  · rw [if_neg hc]
    rfl

/-- C5 witness: a comment count going 0 → 1 on a known issue. -/
theorem C5_witness :
    (eventsOfKindFor EventKind.commentAdded 1
      (checkCycle "opened" none trOk (okFC gOne) stP [issueA]).events =
      if (gOne 1).length > ((dictGet stP.previous_comments 1).getD []).length then
        [commentAddedEvent issueA (gOne 1)] else []) ∧
    (dictGet (checkCycle "opened" none trOk (okFC gOne) stP
        [issueA]).state.previous_comments 1 =
      if (gOne 1).length > ((dictGet stP.previous_comments 1).getD []).length then
        some (gOne 1) else dictGet stP.previous_comments 1) ∧
    (commentAddedEvent issueA (gOne 1)).comment =
      some (((gOne 1).getLast?.getD ⟨""⟩).body) :=
  C5_comment_added_once "opened" none trOk gOne stP [issueA] 1 issueA
    (by unfold keyConsistent; decide) (by decide) (by decide)

/-- C6 (confirmed): an issue key present in the previous table but absent
from the new fetch yields exactly one event for that key, a Closed event;
after the cycle commits the key is absent from the table, and the committed
table is exactly the map built from the fetched issue list. -/
theorem C6_closed_on_absent (os : String) (nt : Option String)
    (tr : String → Event → TransportResult) (g : Nat → List Comment)
    (st : MonitorState) (fetched : List Issue) (k : Nat) (p : Issue)
    (hpcons : keyConsistent st.previous_issues) (hnd : keysNodup st.previous_issues)
    (hprev : dictGet st.previous_issues k = some p)
    (habs : dictGet (buildMap fetched) k = none) :
    eventsFor k (checkCycle os nt tr (okFC g) st fetched).events =
      [closedEvent p] ∧
    (closedEvent p).kind = EventKind.closed ∧
    dictGet (checkCycle os nt tr (okFC g) st fetched).state.previous_issues k =
      none ∧
    (checkCycle os nt tr (okFC g) st fetched).state.previous_issues =
      buildMap fetched := by
  have hne := ne_nil_of_dictGet_some hprev
  refine ⟨checkCycle_eventsFor_absent os nt tr g st fetched k p hpcons hnd hprev
    habs, rfl, ?_, checkCycle_okFC_prev os nt tr g st fetched hne⟩
  rw [checkCycle_okFC_prev os nt tr g st fetched hne]
  exact habs

/-- C6 witness: issue 1 known, empty fetch. -/
theorem C6_witness :
    eventsFor 1 (checkCycle "opened" none trOk (okFC gNone) stP []).events =
      [closedEvent issueA] ∧
    (closedEvent issueA).kind = EventKind.closed ∧
    dictGet (checkCycle "opened" none trOk (okFC gNone) stP
      []).state.previous_issues 1 = none ∧
    (checkCycle "opened" none trOk (okFC gNone) stP []).state.previous_issues =
      buildMap [] :=
  C6_closed_on_absent "opened" none trOk gNone stP [] 1 issueA
    (by unfold keyConsistent; decide) (by unfold keysNodup; decide) (by decide)
    (by decide)

/-- C7 (confirmed): on a successful non-bootstrap cycle the event sequence is
the per-issue events for the fetched map, in the fetch's iteration order,
followed by the Closed events for the previous table's now-absent keys, in
the previous table's iteration order; no event of the first group is a
Closed event and every event of the second group is; and the sequence is a
deterministic function of the previous tables and the fetched data — it does
not depend on the configured channel or on delivery outcomes. -/
theorem C7_event_order (os : String) (nt nt' : Option String)
    (tr tr' : String → Event → TransportResult) (g : Nat → List Comment)
    (st : MonitorState) (fetched : List Issue) (hne : st.previous_issues ≠ []) :
    ((checkCycle os nt tr (okFC g) st fetched).events =
      concatMap (itemBody os st.previous_issues st.previous_comments g)
        (buildMap fetched) ++
      concatMap (closedBody (buildMap fetched)) st.previous_issues) ∧
    (∀ e ∈ concatMap (itemBody os st.previous_issues st.previous_comments g)
      (buildMap fetched), e.kind ≠ EventKind.closed) ∧
    (∀ e ∈ concatMap (closedBody (buildMap fetched)) st.previous_issues,
      e.kind = EventKind.closed) ∧
    (checkCycle os nt' tr' (okFC g) st fetched).events =
      (checkCycle os nt tr (okFC g) st fetched).events := by
  refine ⟨checkCycle_okFC_events os nt tr g st fetched hne, ?_, ?_,
    (checkCycle_indep os nt' nt tr' tr (okFC g) st fetched).1⟩
  · intro e he
    rcases mem_concatMap.mp he with ⟨q, _, heq⟩
    exact mem_itemBody_kind_not_closed heq
  · intro e he
    rcases mem_concatMap.mp he with ⟨q, _, heq⟩
    rcases mem_closedBody heq with ⟨rfl, _⟩
    rfl

/-- C7 witness: the decomposition at a concrete non-bootstrap cycle. -/
theorem C7_witness :
    (checkCycle "opened" none trOk (okFC gNone) stP [issueB]).events =
      concatMap (itemBody "opened" stP.previous_issues stP.previous_comments gNone)
        (buildMap [issueB]) ++
      concatMap (closedBody (buildMap [issueB])) stP.previous_issues :=
  (C7_event_order "opened" none none trOk trOk gNone stP [issueB] (by decide)).1

/-- C8 (confirmed): notification delivery is isolated from the cycle — an
unset `notification.type` yields only a warning and no delivery attempt; an
unrecognized type yields only a warning; a transport that raises is caught
and logged, never propagated; and the cycle's emitted events, committed
state and error flag are identical for every channel configuration and every
transport behaviour, so the table update still commits. -/
theorem C8_delivery_isolation :
    (∀ (tr : String → Event → TransportResult) (ev : Event),
      sendNotification none tr ev = SendResult.warnedNoType) ∧
    (∀ (t : String) (tr : String → Event → TransportResult) (ev : Event),
      t ≠ "slack" → t ≠ "mail" → t ≠ "api" →
      sendNotification (some t) tr ev = SendResult.warnedInvalidType) ∧
    (∀ (t : String) (tr : String → Event → TransportResult) (ev : Event),
      (t = "slack" ∨ t = "mail" ∨ t = "api") →
      tr t ev = TransportResult.raised →
      sendNotification (some t) tr ev = SendResult.errorLogged) ∧
    (∀ (os : String) (nt nt' : Option String)
      (tr tr' : String → Event → TransportResult)
      (fc : Nat → Except Unit (List Comment)) (st : MonitorState)
      (fetched : List Issue),
      (checkCycle os nt tr fc st fetched).events =
        (checkCycle os nt' tr' fc st fetched).events ∧
      (checkCycle os nt tr fc st fetched).state =
        (checkCycle os nt' tr' fc st fetched).state ∧
      (checkCycle os nt tr fc st fetched).errored =
        (checkCycle os nt' tr' fc st fetched).errored) ∧
    (∀ (os : String) (nt : Option String)
      (tr : String → Event → TransportResult) (g : Nat → List Comment)
      (st : MonitorState) (fetched : List Issue), st.previous_issues ≠ [] →
      (checkCycle os nt tr (okFC g) st fetched).state.previous_issues =
        buildMap fetched) := by
  refine ⟨fun tr ev => rfl, ?_, ?_,
    fun os nt nt' tr tr' fc st fetched => checkCycle_indep os nt nt' tr tr' fc st
      fetched,
    fun os nt tr g st fetched hne => checkCycle_okFC_prev os nt tr g st fetched
      hne⟩
  · intro t tr ev h1 h2 h3
    simp only [sendNotification]
    rw [if_neg (fun h => Or.elim h h1 (fun h' => Or.elim h' h2 h3))]
  · intro t tr ev hrec hraise
    simp only [sendNotification]
    rw [if_pos hrec, hraise]

/-- C8 witness: an unrecognized channel type only warns; a raising transport
on a recognized channel is swallowed into a logged error. -/
theorem C8_witness :
    sendNotification (some "chat") trOk (createdEvent issueA) =
      SendResult.warnedInvalidType ∧
    sendNotification (some "slack") trBoom (createdEvent issueA) =
      SendResult.errorLogged :=
  ⟨C8_delivery_isolation.2.1 "chat" trOk (createdEvent issueA) (by decide)
    (by decide) (by decide),
   C8_delivery_isolation.2.2.1 "slack" trBoom (createdEvent issueA) (Or.inl rfl)
    rfl⟩

/-- C10 (confirmed): recorded comment lists are never pruned — a key absent
from the fetch keeps its recorded entry unchanged through any cycle
(bootstrap, error or success), so a reappearing issue is compared against
the stale retained count rather than a 0 baseline; and when the fetched
count does not exceed the recorded count, no CommentAdded event is emitted
and the recorded list stays exactly as it was (it never decreases). -/
theorem C10_comment_counts_retained :
    (∀ (os : String) (nt : Option String) (tr : String → Event → TransportResult)
      (fc : Nat → Except Unit (List Comment)) (st : MonitorState)
      (fetched : List Issue) (k : Nat), (∀ i ∈ fetched, i.key ≠ k) →
      dictGet (checkCycle os nt tr fc st fetched).state.previous_comments k =
        dictGet st.previous_comments k) ∧
    (∀ (os : String) (nt : Option String) (tr : String → Event → TransportResult)
      (g : Nat → List Comment) (st : MonitorState) (fetched : List Issue)
      (k : Nat) (v : Issue) (cs : List Comment), keyConsistent st.previous_issues →
      st.previous_issues ≠ [] → dictGet (buildMap fetched) k = some v →
      dictGet st.previous_comments k = some cs → (g k).length ≤ cs.length →
      eventsOfKindFor EventKind.commentAdded k
        (checkCycle os nt tr (okFC g) st fetched).events = [] ∧
      dictGet (checkCycle os nt tr (okFC g) st fetched).state.previous_comments k =
        some cs) := by
  constructor
  · intro os nt tr fc st fetched k hk
    exact checkCycle_pc_absent os nt tr fc st fetched k hk
  · intro os nt tr g st fetched k v cs hpcons hne hget hcs hle
    have hcond : ¬((g k).length >
        ((dictGet st.previous_comments k).getD []).length) := by
      rw [hcs]
      show ¬((g k).length > cs.length)
      omega
    constructor
    · unfold eventsOfKindFor
      rw [checkCycle_eventsFor_present os nt tr g st fetched k v hpcons hne hget]
      show ((titleStateEvent os st.previous_issues k v).toList ++
        (if (g v.key).length >
            ((dictGet st.previous_comments k).getD []).length then
          [commentAddedEvent v (g v.key)] else [])).filter
          (fun e => e.kind == EventKind.commentAdded) = _
      rw [List.filter_append, tsList_filter_not_mk, List.nil_append,
        dictGet_key_eq (buildMap_keyConsistent fetched) hget, if_neg hcond]
      rfl
    · rw [checkCycle_pc_at_key os nt tr g st fetched k v hne hget, if_neg hcond]
      exact hcs

/-- C10 witness: a removed key's record survives an empty-for-it fetch, and a
fetch that does not exceed the recorded count emits nothing and keeps it. -/
theorem C10_witness :
    dictGet (checkCycle "opened" none trOk (okFC gNone) stC2
      [issueB]).state.previous_comments 1 = dictGet stC2.previous_comments 1 ∧
    (eventsOfKindFor EventKind.commentAdded 1
      (checkCycle "opened" none trOk (okFC gNone) stQ [issueA]).events = [] ∧
    dictGet (checkCycle "opened" none trOk (okFC gNone) stQ
      [issueA]).state.previous_comments 1 = some [⟨"c0"⟩]) :=
  ⟨C10_comment_counts_retained.1 "opened" none trOk (okFC gNone) stC2 [issueB] 1
    (by decide),
   C10_comment_counts_retained.2 "opened" none trOk gNone stQ [issueA] 1 issueA
    [⟨"c0"⟩] (by unfold keyConsistent; decide) (by decide) (by decide) (by decide)
    (by decide)⟩
